import Mathlib

/-!
# Greeter servers (grpc/golang): shallow embedding and verification

Source files:
* `src/grpc/golang/src/greeter_server_demo/main.go` (the full server),
* `src/grpc/golang/src/greeter_server/main.go` (the starter server).

Conventions of the embedding.

* A Go `error` value is `Option GoError`: `none` is `nil`.  `GoError.EOF` is the sentinel
  `io.EOF`, so the Go test `err == io.EOF` is the Lean test `e = GoError.EOF`.
* A Go call returning `(value, error)` is a `Result`: `Result.ok v` stands for `(v, nil)` and
  `Result.err e` for `(_, e)` with `e` non-nil.
* The handlers talk to their surroundings (the inbound stream, the translator backend, the
  outbound stream) only through `Recv`, `AllTranslations`, `Translate` and `Send`.  Every such call
  is recorded, with its outcome, in a trace (`List Event`), oldest first.  What the surroundings
  answer may depend on everything that happened before: the answers of `AllTranslations` and
  `Send` are functions of the trace so far.
* `log.Printf` / `log.Print` calls have no influence on control flow and are left out.
* The counters `inCount` and `tCount` are Go `int`s that start at 0, are incremented once per
  message received and are only ever compared with 0.  They are natural numbers here: a 64-bit
  counter cannot wrap before 2^63 sequential `Recv` calls have returned.
* In `SayHello` the product `time.Duration(*deadlineMs) * time.Millisecond` is an `int64`
  product and does wrap; it is modelled with `wrapInt64`.  The flag `--deadline_ms` is a Go `int`,
  64 bits wide on the usual targets (amd64, arm64), so every `int64` value can be configured.
* An instant (`time.Time`) is an integer count of nanoseconds and `Time.Add` is addition.
-/

namespace Greeter

/-! ## Data model -/

/-- Status codes of package `google.golang.org/grpc/codes`. -/
inductive Code where
  | OK
  | Canceled
  | Unknown
  | InvalidArgument
  | DeadlineExceeded
  | NotFound
  | AlreadyExists
  | PermissionDenied
  | ResourceExhausted
  | FailedPrecondition
  | Aborted
  | OutOfRange
  | Unimplemented
  | Internal
  | Unavailable
  | DataLoss
  | Unauthenticated
  deriving DecidableEq, Repr

/-- Non-nil Go `error` values: `io.EOF`, a gRPC status error built by `status.Error` /
`status.Errorf` (code and message), or a plain error built by `errors.New`. -/
inductive GoError where
  | EOF
  | status (c : Code) (msg : String)
  | errorString (msg : String)
  deriving DecidableEq, Repr

/-- Outcome of a Go call returning `(value, error)`. -/
inductive Result (α : Type) where
  | ok (v : α)
  | err (e : GoError)
  deriving DecidableEq, Repr

/-- Message `greeter_pb.HelloRequest` (the fields the handlers read). -/
structure HelloRequest where
  Name : String
  Locale : String
  deriving DecidableEq, Repr

/-- Message `greeter_pb.HelloReply`. -/
structure HelloReply where
  Message : String
  deriving DecidableEq, Repr

/-- Message `translator_pb.TranslationRequest`. -/
structure TranslationRequest where
  Message : String
  Locale : String
  deriving DecidableEq, Repr

/-- Message `translator_pb.TranslationReply` (also the item type of the `AllTranslations`
stream). -/
structure TranslationReply where
  Translation : String
  deriving DecidableEq, Repr

/-- Message `translator_pb.AllTranslationsRequest`. -/
structure AllTranslationsRequest where
  Message : String
  Locales : List String
  deriving DecidableEq, Repr

/-! ## Time, durations and contexts (`SayHello`) -/

/-- An instant (`time.Time`), counted in nanoseconds from a fixed origin. -/
abbrev Time := Int

/-- Go `int64` wrap-around: the representative of `x` modulo `2^64` in `[-2^63, 2^63)`. -/
def wrapInt64 (x : Int) : Int :=
  (x + 2 ^ 63) % 2 ^ 64 - 2 ^ 63

/-- Constant `time.Millisecond`, a `time.Duration` (an `int64` count of nanoseconds). -/
def Millisecond : Int := 1000000

/-- The part of a `context.Context` the handler looks at: its deadline, when it has one
(`ctx.Deadline()` returns `(d, true)` for `some d` and `(_, false)` for `none`). -/
structure Context where
  deadline : Option Time
  deriving DecidableEq, Repr

/-- Library function `context.WithDeadline(parent, d)`: the child context expires at `d`, unless
the parent already expires earlier, in which case the parent's deadline stays in force. -/
def WithDeadline (parent : Context) (d : Time) : Context :=
  match parent.deadline with
  | some cur => if cur < d then ⟨some cur⟩ else ⟨some d⟩
  | none => ⟨some d⟩

/-- Lines 73-78 of `greeter_server_demo/main.go`: the value of `clientDeadline` that `SayHello`
hands to `context.WithDeadline`.  `deadlineMs` is the flag `--deadline_ms`, `now` is what
`time.Now()` returns. -/
def clientDeadline (deadlineMs : Int) (now : Time) (ctx : Context) : Time :=
  let defaultDeadline := now + wrapInt64 (deadlineMs * Millisecond)
  match ctx.deadline with
  | some d => d
  | none => defaultDeadline

/-- Lines 67-81 of `greeter_server_demo/main.go`: the context and the request that `SayHello`
passes to `s.translator.Translate`. -/
def SayHelloTranslateArgs (deadlineMs : Int) (now : Time) (ctx : Context) (inReq : HelloRequest) :
    Context × TranslationRequest :=
  let pfx := "Hello"
  let tReq : TranslationRequest := { Message := pfx, Locale := inReq.Locale }
  (WithDeadline ctx (clientDeadline deadlineMs now ctx), tReq)

/-- Method `(*server).SayHello` of `greeter_server_demo/main.go`.  `Translate` is the translator
client stub `s.translator.Translate`.  The result is the Go pair `(*HelloReply, error)`, a nil
pointer being `none`. -/
def SayHello (Translate : Context → TranslationRequest → Result TranslationReply)
    (deadlineMs : Int) (now : Time) (ctx : Context) (inReq : HelloRequest) :
    Option HelloReply × Option GoError :=
  let pfx := "Hello"
  let args := SayHelloTranslateArgs deadlineMs now ctx inReq
  let pfx :=
    match Translate args.1 args.2 with
    | Result.err _ => pfx
    | Result.ok reply => reply.Translation
  (some { Message := pfx ++ ", " ++ inReq.Name ++ "!" }, none)

/-! ## Streams and traces (`ManyHellos`) -/

/-- One call made by `ManyHellos` to its surroundings, with what the call returned. -/
inductive Event where
  | Recv (r : Result HelloRequest)
  | AllTranslations (tReq : AllTranslationsRequest) (err : Option GoError)
  | TranslatorRecv (r : Result TranslationReply)
  | Send (reply : HelloReply) (err : Option GoError)
  deriving DecidableEq, Repr

/-- The client side of one `AllTranslations` call (`translator_pb.Translator_AllTranslationsClient`):
successive `Recv` calls return the items in order, then the error `fin` (`io.EOF` when the stream
ends cleanly). -/
structure TranslatorStream where
  items : List TranslationReply
  fin : GoError
  deriving DecidableEq, Repr

/-- The inbound half of `greeter_pb.Greeter_ManyHellosServer`: successive `Recv` calls return the
requests in order, then the error `fin` (`io.EOF` when the peer closes cleanly). -/
structure ClientStream where
  inbound : List HelloRequest
  fin : GoError
  deriving DecidableEq, Repr

/-- What the surroundings answer to the calls that may fail at any time.  Both answers may depend
on the whole history of the session (the trace up to the call). -/
structure Env where
  AllTranslations : List Event → AllTranslationsRequest → Result TranslatorStream
  Send : List Event → HelloReply → Option GoError

/-- How one pass through the inner `for` loop of `ManyHellos` ends: `brk` is the `break` at line
127 (go on with the next inbound request), `ret e` is a `return e` out of the handler. -/
inductive LoopExit where
  | brk
  | ret (e : GoError)
  deriving DecidableEq, Repr

/-- Message built by `status.Errorf(codes.Aborted, "No translations found for \"Hello\" in
locales matching \"%s\"", in.Locale)` at line 129: `%s` is replaced by the string as it is. -/
def abortedMessage (locale : String) : String :=
  "No translations found for \"Hello\" in locales matching \"" ++ locale ++ "\""

/-- Inner `for` loop of `ManyHellos` (lines 122-142) for the inbound request `inReq`.
`fin` and the list argument are what is left of `translatorStream`, `tCount` is the counter and
`tr` the trace so far. -/
def translatorLoop (env : Env) (inReq : HelloRequest) (fin : GoError) :
    List TranslationReply → Nat → List Event → LoopExit × List Event
  | [], tCount, tr =>
    -- tReply, err := translatorStream.Recv() returns the terminal error
    let tr := tr ++ [Event.TranslatorRecv (Result.err fin)]
    if fin = GoError.EOF then
      if tCount > 0 then (LoopExit.brk, tr)
      else (LoopExit.ret (GoError.status Code.Aborted (abortedMessage inReq.Locale)), tr)
    else (LoopExit.ret fin, tr)
  | tReply :: rest, tCount, tr =>
    let tr := tr ++ [Event.TranslatorRecv (Result.ok tReply)]
    let tCount := tCount + 1
    let reply : HelloReply := { Message := tReply.Translation ++ ", " ++ inReq.Name ++ "!" }
    match env.Send tr reply with
    | some err => (LoopExit.ret err, tr ++ [Event.Send reply (some err)])
    | none => translatorLoop env inReq fin rest tCount (tr ++ [Event.Send reply none])

/-- Outer `for` loop of `ManyHellos` (lines 94-143).  `fin` and the list argument are what is
left of `clientStream`, `inCount` is the counter and `tr` the trace so far.  The result is the
error returned by the handler (`none` for `nil`) and the final trace. -/
def ManyHellosLoop (env : Env) (fin : GoError) :
    List HelloRequest → Nat → List Event → Option GoError × List Event
  | [], inCount, tr =>
    -- in, err := clientStream.Recv() returns the terminal error
    let tr := tr ++ [Event.Recv (Result.err fin)]
    if fin = GoError.EOF then
      if inCount > 0 then (none, tr)
      else (some (GoError.status Code.FailedPrecondition "No requests received"), tr)
    else (some fin, tr)
  | inReq :: rest, inCount, tr =>
    let tr := tr ++ [Event.Recv (Result.ok inReq)]
    let inCount := inCount + 1
    let tReq : AllTranslationsRequest := { Message := "Hello", Locales := [inReq.Locale] }
    match env.AllTranslations tr tReq with
    | Result.err err => (some err, tr ++ [Event.AllTranslations tReq (some err)])
    | Result.ok translatorStream =>
      let tr := tr ++ [Event.AllTranslations tReq none]
      let tCount := 0
      match translatorLoop env inReq translatorStream.fin translatorStream.items tCount tr with
      | (LoopExit.ret err, tr) => (some err, tr)
      | (LoopExit.brk, tr) => ManyHellosLoop env fin rest inCount tr

/-- Method `(*server).ManyHellos` of `greeter_server_demo/main.go`: the error it returns and the
trace of the calls it made. -/
def ManyHellos (env : Env) (clientStream : ClientStream) : Option GoError × List Event :=
  ManyHellosLoop env clientStream.fin clientStream.inbound 0 []

/-- The replies written by the handler: the arguments of the `Send` calls that succeeded, in
order. -/
def written : List Event → List HelloReply
  | [] => []
  | Event.Send reply none :: tr => reply :: written tr
  | _ :: tr => written tr

/-- The calls made while the request `inReq` is answered from the translations `ts`, every `Send`
succeeding: for each item one `TranslatorRecv` that returns it and one successful `Send` of the
greeting made from it. -/
def answered (inReq : HelloRequest) : List TranslationReply → List Event
  | [] => []
  | t :: ts =>
    Event.TranslatorRecv (Result.ok t) ::
      Event.Send { Message := t.Translation ++ ", " ++ inReq.Name ++ "!" } none ::
        answered inReq ts

/-- The requests `pre` have been processed successfully and `trPre` is the trace of that: either
there are none and nothing has happened yet, or the session made of exactly these requests and a
clean end-of-input returns `nil`, its trace being `trPre` followed by the last `Recv`. -/
def ProcessedOK (env : Env) (pre : List HelloRequest) (trPre : List Event) : Prop :=
  (pre = [] ∧ trPre = []) ∨
    ManyHellos env { inbound := pre, fin := GoError.EOF } =
      (none, trPre ++ [Event.Recv (Result.err GoError.EOF)])

instance (env : Env) (pre : List HelloRequest) (trPre : List Event) :
    Decidable (ProcessedOK env pre trPre) := by
  unfold ProcessedOK
  exact inferInstance

/-- The error a stream operation reports, clean end-of-stream apart: a `Recv` on either stream
that returns an error other than `io.EOF`, or a `Send` that returns any error. -/
def Event.failure : Event → Option GoError
  | Event.Recv (Result.err e) => if e = GoError.EOF then none else some e
  | Event.TranslatorRecv (Result.err e) => if e = GoError.EOF then none else some e
  | Event.Send _ (some e) => some e
  | _ => none

/-- No call in `l` reports a failure. -/
def Quiet (l : List Event) : Prop :=
  ∀ ev ∈ l, Event.failure ev = none

/-- The error a `LoopExit` makes the handler return, if any. -/
def LoopExit.toErr : LoopExit → Option GoError
  | LoopExit.brk => none
  | LoopExit.ret e => some e

/-- The calls `new` end a run with result `res` in good order: there is a last call, no call
before it reports a failure, and when the last one does, its error is the result. -/
def EndsWith (new : List Event) (res : Option GoError) : Prop :=
  ∃ init last, new = init ++ [last] ∧ Quiet init ∧
    ∀ e, Event.failure last = some e → res = some e

/-! ## Start-up (`main`) of the full server -/

/-- How the first lines of `main` end: `fatal msg` when `log.Fatal(msg)` stops the program,
`listen port` when the program goes on to listen on the address `port`. -/
inductive Startup where
  | fatal (msg : String)
  | listen (port : String)
  deriving DecidableEq, Repr

/-- Lines 149-152 of `greeter_server_demo/main.go`: the check of the flag `--port` and the
address built by `fmt.Sprintf(":%d", *serverPort)`. -/
def mainPortCheck (serverPort : Int) : Startup :=
  if serverPort < 1025 || serverPort > 65000 then
    Startup.fatal "--port must be between 1025 and 65000"
  else Startup.listen (":" ++ toString serverPort)

/-! ## The starter server (`greeter_server/main.go`) -/

namespace Starter

/-- Method `(*server).SayHello` of `greeter_server/main.go` (lines 66-70). -/
def SayHello (_ctx : Context) (inReq : HelloRequest) : Option HelloReply × Option GoError :=
  let pfx := "Hello"
  (some { Message := pfx ++ " " ++ inReq.Name }, none)

/-- Method `(*server).ManyHellos` of `greeter_server/main.go` (lines 73-75): the error it returns
and the trace of the calls it made.  An error built by `errors.New` is identified by its text. -/
def ManyHellos (_env : Env) (_clientStream : ClientStream) : Option GoError × List Event :=
  (some (GoError.errorString "Streaming call is unimplemented"), [])

/-- Lines 80-83 of `greeter_server/main.go`: the check of the flag `--port` and the address built
by `fmt.Sprintf(":%d", *serverPort)`. -/
def mainPortCheck (serverPort : Int) : Startup :=
  if serverPort < 1025 || serverPort > 65000 then
    Startup.fatal "--port must be between 1025 and 65000"
  else Startup.listen (":" ++ toString serverPort)

end Starter

/-! ## Vocabulary for statements about traces -/

/-- The string `sub` occurs in the string `s` as a run of consecutive characters. -/
def Contains (s sub : String) : Prop :=
  sub.data <:+: s.data

instance (s sub : String) : Decidable (Contains s sub) := by
  unfold Contains
  exact inferInstance

/-- The request being processed after the calls `tr`: the one most recently received on the
inbound stream. -/
def lastRequest (tr : List Event) : Option HelloRequest :=
  tr.foldl
    (fun cur ev =>
      match ev with
      | Event.Recv (Result.ok r) => some r
      | _ => cur)
    none

/-- The calls made for a request that is answered in full: it is received, the nested stream
opens, every item `t` of `ts` is received and answered by a successful `Send`, and the nested
stream reports its clean end. -/
def segment (inReq : HelloRequest) (ts : List TranslationReply) : List Event :=
  Event.Recv (Result.ok inReq) ::
    Event.AllTranslations { Message := "Hello", Locales := [inReq.Locale] } none ::
      (answered inReq ts ++ [Event.TranslatorRecv (Result.err GoError.EOF)])

/-- The calls made for a sequence of requests, each answered in full from its own items. -/
def segments : List (HelloRequest × List TranslationReply) → List Event
  | [] => []
  | p :: ps => segment p.1 p.2 ++ segments ps

/-- The translation items received in a trace, in order of receipt. -/
def received : List Event → List TranslationReply
  | [] => []
  | Event.TranslatorRecv (Result.ok t) :: tr => t :: received tr
  | _ :: tr => received tr

/-- The greetings due for the translation items received in a trace, in order of receipt: each
item `t`, received while the request `r` is being processed, gives `t + ", " + r.Name + "!"`.
`cur` is the request being processed when the trace starts. -/
def expectedFrom (cur : Option HelloRequest) : List Event → List HelloReply
  | [] => []
  | Event.Recv (Result.ok r) :: tr => expectedFrom (some r) tr
  | Event.TranslatorRecv (Result.ok t) :: tr =>
    match cur with
    | some r => { Message := t.Translation ++ ", " ++ r.Name ++ "!" } :: expectedFrom cur tr
    | none => expectedFrom cur tr
  | _ :: tr => expectedFrom cur tr

/-- The greetings due for the translation items received in a whole trace. -/
def expectedReplies (tr : List Event) : List HelloReply :=
  expectedFrom none tr

/-- The greetings for a sequence of requests and the items of each: the concatenation, in
request order, of the lists `[t + ", " + r.Name + "!" for t in ts]`. -/
def greetings : List (HelloRequest × List TranslationReply) → List HelloReply
  | [] => []
  | p :: ps =>
    p.2.map (fun t => ({ Message := t.Translation ++ ", " ++ p.1.Name ++ "!" } : HelloReply)) ++
      greetings ps

/-- All the items of a sequence of requests with their items, in order. -/
def itemsOf : List (HelloRequest × List TranslationReply) → List TranslationReply
  | [] => []
  | p :: ps => p.2 ++ itemsOf ps

/-- How a run of `ManyHellos` ends, once the requests answered in full are set aside: with a
`Recv` on the inbound stream that reports `fin`; with an `AllTranslations` call for `inReq` that
fails with `e`; with a nested stream for `inReq` that, after the answered items `ts`, reports
`fin`; or with a `Send` that fails with `e` for the item `t`, after the answered items `ts`. -/
inductive Ending where
  | inboundEnd (fin : GoError)
  | openFailed (inReq : HelloRequest) (e : GoError)
  | nestedEnd (inReq : HelloRequest) (ts : List TranslationReply) (fin : GoError)
  | sendFailed (inReq : HelloRequest) (ts : List TranslationReply) (t : TranslationReply)
      (e : GoError)
  deriving DecidableEq, Repr

/-- The calls of an ending. -/
def Ending.events : Ending → List Event
  | Ending.inboundEnd fin => [Event.Recv (Result.err fin)]
  | Ending.openFailed inReq e =>
    [Event.Recv (Result.ok inReq),
      Event.AllTranslations { Message := "Hello", Locales := [inReq.Locale] } (some e)]
  | Ending.nestedEnd inReq ts fin =>
    Event.Recv (Result.ok inReq) ::
      Event.AllTranslations { Message := "Hello", Locales := [inReq.Locale] } none ::
        (answered inReq ts ++ [Event.TranslatorRecv (Result.err fin)])
  | Ending.sendFailed inReq ts t e =>
    Event.Recv (Result.ok inReq) ::
      Event.AllTranslations { Message := "Hello", Locales := [inReq.Locale] } none ::
        (answered inReq ts ++
          [Event.TranslatorRecv (Result.ok t),
            Event.Send { Message := t.Translation ++ ", " ++ inReq.Name ++ "!" } (some e)])

/-- The error the handler returns for an ending, `n` requests having been answered in full. -/
def Ending.result (n : Nat) : Ending → Option GoError
  | Ending.inboundEnd fin =>
    if fin = GoError.EOF then
      if n > 0 then none
      else some (GoError.status Code.FailedPrecondition "No requests received")
    else some fin
  | Ending.openFailed _ e => some e
  | Ending.nestedEnd inReq _ fin =>
    if fin = GoError.EOF then some (GoError.status Code.Aborted (abortedMessage inReq.Locale))
    else some fin
  | Ending.sendFailed _ _ _ e => some e

/-- A nested stream that ends the run by its clean end has given no item. -/
def Ending.Valid : Ending → Prop
  | Ending.nestedEnd _ ts fin => fin = GoError.EOF → ts = []
  | _ => True

/-- The last call of an ending. -/
def Ending.last : Ending → Event
  | Ending.inboundEnd fin => Event.Recv (Result.err fin)
  | Ending.openFailed inReq e =>
    Event.AllTranslations { Message := "Hello", Locales := [inReq.Locale] } (some e)
  | Ending.nestedEnd _ _ fin => Event.TranslatorRecv (Result.err fin)
  | Ending.sendFailed inReq _ t e =>
    Event.Send { Message := t.Translation ++ ", " ++ inReq.Name ++ "!" } (some e)

/-- Whether a call is a `Recv` on the inbound stream. -/
def Event.isRecv : Event → Bool
  | Event.Recv _ => true
  | _ => false

/-- The handler is at the top of its outer loop after the calls `h`: nothing has happened yet, or
the calls end with those of a request answered in full, whose nested stream, as opened by the
translator, had exactly the items received and ended cleanly. -/
def AtHead (env : Env) (h : List Event) : Prop :=
  h = [] ∨
    ∃ h0 inReq translatorStream,
      env.AllTranslations (h0 ++ [Event.Recv (Result.ok inReq)])
          { Message := "Hello", Locales := [inReq.Locale] } = Result.ok translatorStream ∧
        translatorStream.fin = GoError.EOF ∧ translatorStream.items ≠ [] ∧
        h = h0 ++ segment inReq translatorStream.items

/-- What holds of a call of `ManyHellos`, given the calls `h` made before it: a `Recv` on the
inbound stream is made at the top of the outer loop; an `AllTranslations` call comes right after
the receipt of a request and asks for `Hello` in the locale of that request; a `Recv` on the nested
stream comes right after the stream was opened or after a successful `Send`; a `Send` comes right
after the receipt of an item and carries the greeting made from that item and the request being
processed. -/
def Allowed (env : Env) (h : List Event) : Event → Prop
  | Event.Recv _ => AtHead env h
  | Event.AllTranslations tReq _ =>
    ∃ h0 inReq, h = h0 ++ [Event.Recv (Result.ok inReq)] ∧
      tReq = { Message := "Hello", Locales := [inReq.Locale] }
  | Event.TranslatorRecv _ =>
    (∃ h0 tReq, h = h0 ++ [Event.AllTranslations tReq none]) ∨
      ∃ h0 reply, h = h0 ++ [Event.Send reply none]
  | Event.Send reply _ =>
    ∃ h0 inReq t, h = h0 ++ [Event.TranslatorRecv (Result.ok t)] ∧
      lastRequest h0 = some inReq ∧
      reply = { Message := t.Translation ++ ", " ++ inReq.Name ++ "!" }

/-- Every call in `l` is allowed after the calls before it. -/
def Justified (env : Env) (l : List Event) : Prop :=
  ∀ a ev b, l = a ++ ev :: b → Allowed env a ev

/-! ## What the surroundings deliver to a session -/

/-- Every `Send` succeeds while the request `inReq` is answered from the items `ts`, the calls
`tr` having been made so far: the `Send` of the greeting for the first item, asked right after the
receipt of that item, returns `nil`, and so on for the items that follow. -/
def SendsSucceed (env : Env) (inReq : HelloRequest) :
    List TranslationReply → List Event → Prop
  | [], _ => True
  | t :: ts, tr =>
    env.Send (tr ++ [Event.TranslatorRecv (Result.ok t)])
        { Message := t.Translation ++ ", " ++ inReq.Name ++ "!" } = none ∧
      SendsSucceed env inReq ts
        (tr ++ [Event.TranslatorRecv (Result.ok t)] ++
          [Event.Send { Message := t.Translation ++ ", " ++ inReq.Name ++ "!" } none])

/-- The surroundings serve the requests `reqs` well, the calls `tr` having been made so far: for
each request in turn, the `AllTranslations` call for `Hello` in its locale opens a nested stream,
that stream has at least one item and ends cleanly, and every `Send` of a reply succeeds. -/
def WellServed (env : Env) : List HelloRequest → List Event → Prop
  | [], _ => True
  | inReq :: rest, tr =>
    ∃ translatorStream,
      env.AllTranslations (tr ++ [Event.Recv (Result.ok inReq)])
          { Message := "Hello", Locales := [inReq.Locale] } = Result.ok translatorStream ∧
        translatorStream.fin = GoError.EOF ∧ translatorStream.items ≠ [] ∧
        SendsSucceed env inReq translatorStream.items
          (tr ++ [Event.Recv (Result.ok inReq)] ++
            [Event.AllTranslations { Message := "Hello", Locales := [inReq.Locale] } none]) ∧
        WellServed env rest (tr ++ segment inReq translatorStream.items)

/-! ## Sample surroundings, used to evaluate the handlers -/

/-- A translator that knows one French translation, and an outbound stream that never fails. -/
def envBonjour : Env where
  AllTranslations := fun _ _ =>
    Result.ok { items := [{ Translation := "Bonjour" }], fin := GoError.EOF }
  Send := fun _ _ => none

/-- A translator that finds nothing, and an outbound stream that never fails. -/
def envNothing : Env where
  AllTranslations := fun _ _ => Result.ok { items := [], fin := GoError.EOF }
  Send := fun _ _ => none

/-- A translator that answers the first request of a session and finds nothing for later ones. -/
def envOnce : Env where
  AllTranslations := fun tr _ =>
    if tr.length ≤ 1 then Result.ok { items := [{ Translation := "Bonjour" }], fin := GoError.EOF }
    else Result.ok { items := [], fin := GoError.EOF }
  Send := fun _ _ => none

/-- A translator stub that answers `Bonjour` to every `Translate` call. -/
def translateBonjour : Context → TranslationRequest → Result TranslationReply :=
  fun _ _ => Result.ok { Translation := "Bonjour" }

/-- A translator stub whose `Translate` call always fails. -/
def translateDown : Context → TranslationRequest → Result TranslationReply :=
  fun _ _ => Result.err (GoError.status Code.Unavailable "translator down")

/-- A translator that knows one French translation, and an outbound stream that is broken. -/
def envBroken : Env where
  AllTranslations := fun _ _ =>
    Result.ok { items := [{ Translation := "Bonjour" }], fin := GoError.EOF }
  Send := fun _ _ => some (GoError.status Code.Unavailable "transport is closing")

/-- A translator that answers the first request of a session and rejects later ones. -/
def envReject : Env where
  AllTranslations := fun tr _ =>
    if tr.length ≤ 1 then Result.ok { items := [{ Translation := "Bonjour" }], fin := GoError.EOF }
    else Result.err (GoError.status Code.Unavailable "translator down")
  Send := fun _ _ => none

/-! ## Lemmas on the loops -/

theorem written_append (a b : List Event) : written (a ++ b) = written a ++ written b := by
  induction a with
  | nil => rfl
  | cons ev a ih =>
    cases ev with
    | Send reply err =>
      cases err with
      | none => simp [written, ih]
      | some e => simp [written, ih]
    | Recv r => simp [written, ih]
    | AllTranslations q err => simp [written, ih]
    | TranslatorRecv r => simp [written, ih]

theorem written_answered (inReq : HelloRequest) (ts : List TranslationReply) :
    written (answered inReq ts) =
      ts.map (fun t => ({ Message := t.Translation ++ ", " ++ inReq.Name ++ "!" } : HelloReply)) := by
  induction ts with
  | nil => rfl
  | cons t ts ih => simp [answered, written, ih]

/-- One turn of the outer loop, spelled out. -/
theorem ManyHellosLoop_cons (env : Env) (fin : GoError) (inReq : HelloRequest)
    (rest : List HelloRequest) (inCount : Nat) (tr : List Event) :
    ManyHellosLoop env fin (inReq :: rest) inCount tr =
      match env.AllTranslations (tr ++ [Event.Recv (Result.ok inReq)])
          { Message := "Hello", Locales := [inReq.Locale] } with
      | Result.err err =>
        (some err, tr ++ [Event.Recv (Result.ok inReq)] ++
          [Event.AllTranslations { Message := "Hello", Locales := [inReq.Locale] } (some err)])
      | Result.ok translatorStream =>
        match translatorLoop env inReq translatorStream.fin translatorStream.items 0
            (tr ++ [Event.Recv (Result.ok inReq)] ++
              [Event.AllTranslations { Message := "Hello", Locales := [inReq.Locale] } none]) with
        | (LoopExit.ret err, tr1) => (some err, tr1)
        | (LoopExit.brk, tr1) => ManyHellosLoop env fin rest (inCount + 1) tr1 := by
  rw [ManyHellosLoop]

/-- The inner loop on a stream that ends cleanly while every `Send` succeeds. -/
theorem translatorLoop_sent (env : Env) (inReq : HelloRequest)
    (hsend : ∀ h reply, env.Send h reply = none) (ts : List TranslationReply) :
    ∀ (tCount : Nat) (tr : List Event),
      translatorLoop env inReq GoError.EOF ts tCount tr =
        (if tCount + ts.length > 0 then LoopExit.brk
          else LoopExit.ret (GoError.status Code.Aborted (abortedMessage inReq.Locale)),
         tr ++ answered inReq ts ++ [Event.TranslatorRecv (Result.err GoError.EOF)]) := by
  induction ts with
  | nil =>
    intro tCount tr
    simp only [translatorLoop, answered, List.length_nil, Nat.add_zero, List.append_nil, if_true]
    split_ifs <;> rfl
  | cons t ts ih =>
    intro tCount tr
    rw [translatorLoop]
    simp only [hsend]
    rw [ih]
    have h1 : tCount + 1 + ts.length > 0 := by omega
    have h2 : tCount + (t :: ts).length > 0 := by simp
    simp only [h1, h2, if_true, answered]
    simp [List.append_assoc]

/-- The inner loop only adds to the trace. -/
theorem translatorLoop_trace (env : Env) (inReq : HelloRequest) (fin : GoError)
    (ts : List TranslationReply) :
    ∀ (tCount : Nat) (tr : List Event),
      ∃ new, (translatorLoop env inReq fin ts tCount tr).2 = tr ++ new := by
  induction ts with
  | nil =>
    intro tCount tr
    refine ⟨[Event.TranslatorRecv (Result.err fin)], ?_⟩
    simp only [translatorLoop]
    split_ifs <;> rfl
  | cons t ts ih =>
    intro tCount tr
    rw [translatorLoop]
    cases hs : env.Send (tr ++ [Event.TranslatorRecv (Result.ok t)])
        { Message := t.Translation ++ ", " ++ inReq.Name ++ "!" } with
    | some e =>
      refine ⟨[Event.TranslatorRecv (Result.ok t),
        Event.Send { Message := t.Translation ++ ", " ++ inReq.Name ++ "!" } (some e)], ?_⟩
      simp
    | none =>
      obtain ⟨new, hnew⟩ := ih (tCount + 1) (tr ++ [Event.TranslatorRecv (Result.ok t)] ++
        [Event.Send { Message := t.Translation ++ ", " ++ inReq.Name ++ "!" } none])
      refine ⟨[Event.TranslatorRecv (Result.ok t),
        Event.Send { Message := t.Translation ++ ", " ++ inReq.Name ++ "!" } none] ++ new, ?_⟩
      simp only [hnew]
      simp

/-- The outer loop starts with a `Recv` on the inbound stream and only adds to the trace. -/
theorem ManyHellosLoop_trace (env : Env) (fin : GoError) (reqs : List HelloRequest)
    (inCount : Nat) (tr : List Event) :
    ∃ r later, (ManyHellosLoop env fin reqs inCount tr).2 = tr ++ Event.Recv r :: later := by
  induction reqs generalizing inCount tr with
  | nil =>
    refine ⟨Result.err fin, [], ?_⟩
    simp only [ManyHellosLoop]
    split_ifs <;> rfl
  | cons inReq rest ih =>
    rw [ManyHellosLoop_cons]
    cases ho : env.AllTranslations (tr ++ [Event.Recv (Result.ok inReq)])
        { Message := "Hello", Locales := [inReq.Locale] } with
    | err e =>
      refine ⟨Result.ok inReq,
        [Event.AllTranslations { Message := "Hello", Locales := [inReq.Locale] } (some e)], ?_⟩
      simp
    | ok translatorStream =>
      obtain ⟨new, hnew⟩ := translatorLoop_trace env inReq translatorStream.fin
        translatorStream.items 0 (tr ++ [Event.Recv (Result.ok inReq)] ++
          [Event.AllTranslations { Message := "Hello", Locales := [inReq.Locale] } none])
      cases hl : translatorLoop env inReq translatorStream.fin translatorStream.items 0
          (tr ++ [Event.Recv (Result.ok inReq)] ++
            [Event.AllTranslations { Message := "Hello", Locales := [inReq.Locale] } none]) with
      | mk ex tr1 =>
        rw [hl] at hnew
        simp only at hnew
        cases ex with
        | ret e =>
          refine ⟨Result.ok inReq,
            Event.AllTranslations { Message := "Hello", Locales := [inReq.Locale] } none :: new,
            ?_⟩
          simp only [hl, hnew]
          simp
        | brk =>
          obtain ⟨r, later, hlater⟩ := ih (inCount + 1) tr1
          refine ⟨Result.ok inReq,
            Event.AllTranslations { Message := "Hello", Locales := [inReq.Locale] } none ::
              (new ++ Event.Recv r :: later), ?_⟩
          simp only [hl, hlater]
          simp [hnew]

/-- Requests that a session of their own answers successfully are answered in the same way at
the head of any longer session, which then goes on with the rest. -/
theorem ManyHellosLoop_append (env : Env) (pre : List HelloRequest) :
    ∀ (inCount : Nat) (tr0 tr1 : List Event), pre ≠ [] →
      ManyHellosLoop env GoError.EOF pre inCount tr0 =
        (none, tr1 ++ [Event.Recv (Result.err GoError.EOF)]) →
      ∀ (fin : GoError) (more : List HelloRequest),
        ManyHellosLoop env fin (pre ++ more) inCount tr0 =
          ManyHellosLoop env fin more (inCount + pre.length) tr1 := by
  induction pre with
  | nil => intro _ _ _ h; exact absurd rfl h
  | cons inReq pre ih =>
    intro inCount tr0 tr1 _ hrun fin more
    rw [List.cons_append, ManyHellosLoop_cons]
    rw [ManyHellosLoop_cons] at hrun
    cases ho : env.AllTranslations (tr0 ++ [Event.Recv (Result.ok inReq)])
        { Message := "Hello", Locales := [inReq.Locale] } with
    | err e =>
      rw [ho] at hrun
      simp at hrun
    | ok translatorStream =>
      rw [ho] at hrun
      simp only at hrun ⊢
      cases hl : translatorLoop env inReq translatorStream.fin translatorStream.items 0
          (tr0 ++ [Event.Recv (Result.ok inReq)] ++
            [Event.AllTranslations { Message := "Hello", Locales := [inReq.Locale] } none]) with
      | mk ex trx =>
        rw [hl] at hrun
        cases ex with
        | ret e => simp at hrun
        | brk =>
          simp only at hrun ⊢
          cases pre with
          | nil =>
            simp only [ManyHellosLoop, Nat.succ_pos, if_true, gt_iff_lt] at hrun
            have htr : trx = tr1 := List.append_cancel_right (Prod.mk.inj hrun).2
            simp [htr]
          | cons r2 pre2 =>
            have := ih (inCount + 1) trx tr1 (List.cons_ne_nil _ _) hrun fin more
            rw [this]
            congr 1
            simp only [List.length_cons]
            omega

/-- A session that starts with successfully processed requests reaches the top of the loop with
their number in `inCount` and their trace. -/
theorem ManyHellos_processed (env : Env) (pre : List HelloRequest) (trPre : List Event)
    (hpre : ProcessedOK env pre trPre) (fin : GoError) (more : List HelloRequest) :
    ManyHellos env { inbound := pre ++ more, fin := fin } =
      ManyHellosLoop env fin more pre.length trPre := by
  rcases hpre with ⟨h1, h2⟩ | h
  · subst h1
    subst h2
    rfl
  · cases pre with
    | nil => simp [ManyHellos, ManyHellosLoop] at h
    | cons r pre =>
      have := ManyHellosLoop_append env (r :: pre) 0 [] trPre (List.cons_ne_nil _ _) h fin more
      simpa [ManyHellos] using this

/-- Nothing has been processed before the first request. -/
theorem ProcessedOK_nil (env : Env) (trPre : List Event) (h : ProcessedOK env [] trPre) :
    trPre = [] := by
  rcases h with ⟨_, h2⟩ | h
  · exact h2
  · simp [ManyHellos, ManyHellosLoop] at h

theorem Quiet_nil : Quiet [] := by
  intro ev hev
  cases hev

theorem Quiet_append {a b : List Event} (ha : Quiet a) (hb : Quiet b) : Quiet (a ++ b) := by
  intro ev hev
  rcases List.mem_append.mp hev with h | h
  · exact ha ev h
  · exact hb ev h

theorem Quiet_cons {ev : Event} {l : List Event} (h : Event.failure ev = none) (hl : Quiet l) :
    Quiet (ev :: l) := by
  intro x hx
  rcases List.mem_cons.mp hx with h1 | h1
  · rw [h1]; exact h
  · exact hl x h1

theorem EndsWith_single (ev : Event) (res : Option GoError)
    (h : ∀ e, Event.failure ev = some e → res = some e) : EndsWith [ev] res :=
  ⟨[], ev, rfl, Quiet_nil, h⟩

theorem EndsWith_append {a b : List Event} {res : Option GoError} (ha : Quiet a)
    (hb : EndsWith b res) : EndsWith (a ++ b) res := by
  obtain ⟨init, last, hnew, hq, hl⟩ := hb
  exact ⟨a ++ init, last, by rw [hnew, List.append_assoc], Quiet_append ha hq, hl⟩

/-- A run that breaks out of the inner loop has made no failing call. -/
theorem EndsWith_none_quiet {new : List Event} (h : EndsWith new none) : Quiet new := by
  obtain ⟨init, last, hnew, hq, hl⟩ := h
  rw [hnew]
  refine Quiet_append hq (Quiet_cons ?_ Quiet_nil)
  cases hf : Event.failure last with
  | none => rfl
  | some e => exact absurd (hl e hf) (by simp)

/-- The calls made by the inner loop end in good order. -/
theorem translatorLoop_ends (env : Env) (inReq : HelloRequest) (fin : GoError)
    (ts : List TranslationReply) :
    ∀ (tCount : Nat) (tr : List Event),
      ∃ new, (translatorLoop env inReq fin ts tCount tr).2 = tr ++ new ∧
        EndsWith new (translatorLoop env inReq fin ts tCount tr).1.toErr := by
  induction ts with
  | nil =>
    intro tCount tr
    refine ⟨[Event.TranslatorRecv (Result.err fin)], ?_, ?_⟩
    · simp only [translatorLoop]
      split_ifs <;> rfl
    · apply EndsWith_single
      intro e he
      simp only [translatorLoop]
      by_cases hfin : fin = GoError.EOF
      · simp [Event.failure, hfin] at he
      · simp only [Event.failure, hfin, if_false, Option.some.injEq] at he
        subst he
        simp [hfin, LoopExit.toErr]
  | cons t ts ih =>
    intro tCount tr
    rw [translatorLoop]
    cases hs : env.Send (tr ++ [Event.TranslatorRecv (Result.ok t)])
        { Message := t.Translation ++ ", " ++ inReq.Name ++ "!" } with
    | some e =>
      refine ⟨[Event.TranslatorRecv (Result.ok t)] ++
        [Event.Send { Message := t.Translation ++ ", " ++ inReq.Name ++ "!" } (some e)], ?_, ?_⟩
      · simp
      · refine EndsWith_append (Quiet_cons rfl Quiet_nil) (EndsWith_single _ _ ?_)
        intro e2 he2
        simpa [Event.failure, LoopExit.toErr] using he2
    | none =>
      obtain ⟨new, hnew, hends⟩ := ih (tCount + 1) (tr ++ [Event.TranslatorRecv (Result.ok t)] ++
        [Event.Send { Message := t.Translation ++ ", " ++ inReq.Name ++ "!" } none])
      refine ⟨[Event.TranslatorRecv (Result.ok t),
        Event.Send { Message := t.Translation ++ ", " ++ inReq.Name ++ "!" } none] ++ new, ?_, ?_⟩
      · simp only [hnew]
        simp
      · exact EndsWith_append (Quiet_cons rfl (Quiet_cons rfl Quiet_nil)) hends

/-- The calls made by the outer loop end in good order. -/
theorem ManyHellosLoop_ends (env : Env) (fin : GoError) (reqs : List HelloRequest) :
    ∀ (inCount : Nat) (tr : List Event),
      ∃ new, (ManyHellosLoop env fin reqs inCount tr).2 = tr ++ new ∧
        EndsWith new (ManyHellosLoop env fin reqs inCount tr).1 := by
  induction reqs with
  | nil =>
    intro inCount tr
    refine ⟨[Event.Recv (Result.err fin)], ?_, ?_⟩
    · simp only [ManyHellosLoop]
      split_ifs <;> rfl
    · apply EndsWith_single
      intro e he
      simp only [ManyHellosLoop]
      by_cases hfin : fin = GoError.EOF
      · simp [Event.failure, hfin] at he
      · simp only [Event.failure, hfin, if_false, Option.some.injEq] at he
        subst he
        simp [hfin]
  | cons inReq rest ih =>
    intro inCount tr
    rw [ManyHellosLoop_cons]
    cases ho : env.AllTranslations (tr ++ [Event.Recv (Result.ok inReq)])
        { Message := "Hello", Locales := [inReq.Locale] } with
    | err e =>
      refine ⟨[Event.Recv (Result.ok inReq)] ++
        [Event.AllTranslations { Message := "Hello", Locales := [inReq.Locale] } (some e)],
        ?_, ?_⟩
      · simp
      · refine EndsWith_append (Quiet_cons rfl Quiet_nil) (EndsWith_single _ _ ?_)
        intro e2 he2
        simp [Event.failure] at he2
    | ok translatorStream =>
      obtain ⟨new, hnew, hends⟩ := translatorLoop_ends env inReq translatorStream.fin
        translatorStream.items 0 (tr ++ [Event.Recv (Result.ok inReq)] ++
          [Event.AllTranslations { Message := "Hello", Locales := [inReq.Locale] } none])
      cases hl : translatorLoop env inReq translatorStream.fin translatorStream.items 0
          (tr ++ [Event.Recv (Result.ok inReq)] ++
            [Event.AllTranslations { Message := "Hello", Locales := [inReq.Locale] } none]) with
      | mk ex tr1 =>
        rw [hl] at hnew hends
        simp only at hnew hends
        cases ex with
        | ret e =>
          refine ⟨[Event.Recv (Result.ok inReq),
            Event.AllTranslations { Message := "Hello", Locales := [inReq.Locale] } none] ++ new,
            ?_, ?_⟩
          · simp only [hl, hnew]
            simp
          · simp only [hl]
            exact EndsWith_append (Quiet_cons rfl (Quiet_cons rfl Quiet_nil)) hends
        | brk =>
          obtain ⟨new2, hnew2, hends2⟩ := ih (inCount + 1) tr1
          refine ⟨([Event.Recv (Result.ok inReq),
            Event.AllTranslations { Message := "Hello", Locales := [inReq.Locale] } none] ++ new)
              ++ new2, ?_, ?_⟩
          · simp only [hl, hnew2]
            simp [hnew]
          · simp only [hl]
            exact EndsWith_append
              (Quiet_append (Quiet_cons rfl (Quiet_cons rfl Quiet_nil))
                (EndsWith_none_quiet hends)) hends2

/-- In a list of calls that ends in good order, a failing call is the last one. -/
theorem EndsWith_failure_last {new : List Event} {res : Option GoError} (h : EndsWith new res)
    (pre : List Event) (ev : Event) (post : List Event) (e : GoError)
    (hsplit : new = pre ++ ev :: post) (hev : Event.failure ev = some e) :
    post = [] ∧ res = some e ∧ Quiet pre := by
  obtain ⟨init, last, hnew, hq, hl⟩ := h
  rcases List.eq_nil_or_concat post with hp | ⟨post2, p, hp⟩
  · subst hp
    rw [hnew] at hsplit
    have h1 : init ++ [last] = pre ++ [ev] := hsplit
    obtain ⟨h2, h3⟩ := List.append_inj' h1 rfl
    have h4 : last = ev := by simpa using h3
    subst h4
    subst h2
    exact ⟨rfl, hl e hev, hq⟩
  · subst hp
    rw [hnew] at hsplit
    have h1 : init ++ [last] = (pre ++ ev :: post2) ++ [p] := by
      rw [hsplit]; simp
    obtain ⟨h2, _⟩ := List.append_inj' h1 rfl
    have hmem : ev ∈ init := by rw [h2]; simp
    have := hq ev hmem
    rw [hev] at this
    exact absurd this (by simp)

/-! ## The streaming handler `ManyHellos` -/

/-- C1: when the requests `pre` have been processed successfully and the next request `inReq`
gets a nested stream that opens, yields the `k ≥ 1` items `ts` and ends cleanly, every `Send`
succeeding, then in every session that continues with `inReq` the handler performs, between
reading `inReq` and its next `Recv` on the inbound stream, exactly one successful `Send` per item,
in the order of the items, the reply for the item `t` having the message
`t.Translation ++ ", " ++ inReq.Name ++ "!"`; so exactly `k` replies are written for `inReq`.
When `inReq` is the only request and is followed by a clean end-of-input, `ManyHellos` returns
`nil` and these `k` replies are all that is written. -/
theorem ManyHellos_replies_per_request (env : Env) (pre : List HelloRequest)
    (trPre : List Event) (inReq : HelloRequest) (ts : List TranslationReply)
    (hpre : ProcessedOK env pre trPre)
    (hk : 1 ≤ ts.length)
    (hopen : env.AllTranslations (trPre ++ [Event.Recv (Result.ok inReq)])
      { Message := "Hello", Locales := [inReq.Locale] } =
        Result.ok { items := ts, fin := GoError.EOF })
    (hsend : ∀ h reply, env.Send h reply = none) :
    (∀ (rest : List HelloRequest) (fin : GoError), ∃ r later,
        (ManyHellos env { inbound := pre ++ inReq :: rest, fin := fin }).2 =
          trPre ++ [Event.Recv (Result.ok inReq),
              Event.AllTranslations { Message := "Hello", Locales := [inReq.Locale] } none] ++
            answered inReq ts ++ [Event.TranslatorRecv (Result.err GoError.EOF)] ++
              Event.Recv r :: later) ∧
      written (answered inReq ts) =
        ts.map (fun t =>
          ({ Message := t.Translation ++ ", " ++ inReq.Name ++ "!" } : HelloReply)) ∧
      (written (answered inReq ts)).length = ts.length ∧
      (pre = [] →
        ManyHellos env { inbound := [inReq], fin := GoError.EOF } =
          (none,
            [Event.Recv (Result.ok inReq),
              Event.AllTranslations { Message := "Hello", Locales := [inReq.Locale] } none] ++
            answered inReq ts ++ [Event.TranslatorRecv (Result.err GoError.EOF)] ++
              [Event.Recv (Result.err GoError.EOF)]) ∧
        written (ManyHellos env { inbound := [inReq], fin := GoError.EOF }).2 =
          ts.map (fun t =>
            ({ Message := t.Translation ++ ", " ++ inReq.Name ++ "!" } : HelloReply))) := by
  have hpos : 0 + ts.length > 0 := by omega
  have hstep : ∀ (rest : List HelloRequest) (fin : GoError),
      ManyHellos env { inbound := pre ++ inReq :: rest, fin := fin } =
        ManyHellosLoop env fin rest (pre.length + 1)
          (trPre ++ [Event.Recv (Result.ok inReq)] ++
            [Event.AllTranslations { Message := "Hello", Locales := [inReq.Locale] } none] ++
            answered inReq ts ++ [Event.TranslatorRecv (Result.err GoError.EOF)]) := by
    intro rest fin
    rw [ManyHellos_processed env pre trPre hpre, ManyHellosLoop_cons, hopen]
    simp only
    rw [translatorLoop_sent env inReq hsend]
    simp only [hpos, if_true]
  refine ⟨?_, written_answered inReq ts, ?_, ?_⟩
  · intro rest fin
    obtain ⟨r, later, h⟩ := ManyHellosLoop_trace env fin rest (pre.length + 1)
      (trPre ++ [Event.Recv (Result.ok inReq)] ++
        [Event.AllTranslations { Message := "Hello", Locales := [inReq.Locale] } none] ++
        answered inReq ts ++ [Event.TranslatorRecv (Result.err GoError.EOF)])
    refine ⟨r, later, ?_⟩
    rw [hstep, h]
    simp
  · rw [written_answered, List.length_map]
  · intro hnil
    subst hnil
    have htr : trPre = [] := ProcessedOK_nil env trPre hpre
    subst htr
    have h1 := hstep [] GoError.EOF
    simp only [List.nil_append, List.length_nil, Nat.zero_add] at h1
    have h2 : ManyHellos env { inbound := [inReq], fin := GoError.EOF } =
        (none,
          [Event.Recv (Result.ok inReq),
            Event.AllTranslations { Message := "Hello", Locales := [inReq.Locale] } none] ++
          answered inReq ts ++ [Event.TranslatorRecv (Result.err GoError.EOF)] ++
            [Event.Recv (Result.err GoError.EOF)]) := by
      rw [h1]
      simp [ManyHellosLoop]
    refine ⟨h2, ?_⟩
    rw [h2]
    simp [written_append, written, written_answered]

/-- C1, evaluated: one request `Ann`/`fr`, one translation `Bonjour`. -/
theorem ManyHellos_replies_per_request_witness :
    ProcessedOK envBonjour [] [] ∧
      written (ManyHellos envBonjour
        { inbound := [{ Name := "Ann", Locale := "fr" }], fin := GoError.EOF }).2 =
          [{ Message := "Bonjour, Ann!" }] :=
  ⟨by decide,
    ((ManyHellos_replies_per_request envBonjour [] [] { Name := "Ann", Locale := "fr" }
      [{ Translation := "Bonjour" }] (by decide) (by decide) rfl (fun _ _ => rfl)).2.2.2 rfl).2⟩

/-- C2: when the requests `pre` have been processed successfully and the next request `inReq`
gets a nested stream that opens and ends cleanly without any item, then in every session that
continues with `inReq`, whatever follows it, `ManyHellos` returns a status error of code `Aborted`;
after reading `inReq` it makes the `AllTranslations` call and one `Recv` on the nested stream and
nothing else: no `Send`, and no further `Recv` on the inbound stream.  What has been written is
what was written for `pre`. -/
theorem ManyHellos_zero_translations (env : Env) (pre : List HelloRequest)
    (trPre : List Event) (inReq : HelloRequest) (rest : List HelloRequest) (fin : GoError)
    (hpre : ProcessedOK env pre trPre)
    (hopen : env.AllTranslations (trPre ++ [Event.Recv (Result.ok inReq)])
      { Message := "Hello", Locales := [inReq.Locale] } =
        Result.ok { items := [], fin := GoError.EOF }) :
    (∃ msg, ManyHellos env { inbound := pre ++ inReq :: rest, fin := fin } =
        (some (GoError.status Code.Aborted msg),
          trPre ++ [Event.Recv (Result.ok inReq),
            Event.AllTranslations { Message := "Hello", Locales := [inReq.Locale] } none,
            Event.TranslatorRecv (Result.err GoError.EOF)])) ∧
      written (ManyHellos env { inbound := pre ++ inReq :: rest, fin := fin }).2 =
        written trPre := by
  have h : ManyHellos env { inbound := pre ++ inReq :: rest, fin := fin } =
      (some (GoError.status Code.Aborted (abortedMessage inReq.Locale)),
        trPre ++ [Event.Recv (Result.ok inReq),
          Event.AllTranslations { Message := "Hello", Locales := [inReq.Locale] } none,
          Event.TranslatorRecv (Result.err GoError.EOF)]) := by
    rw [ManyHellos_processed env pre trPre hpre, ManyHellosLoop_cons, hopen]
    simp [translatorLoop]
  refine ⟨⟨_, h⟩, ?_⟩
  rw [h]
  simp [written_append, written]

/-- C2, evaluated: `Ann` is answered, nothing is found for `Bob`, `Cyd` is never read. -/
theorem ManyHellos_zero_translations_witness :
    ProcessedOK envOnce [{ Name := "Ann", Locale := "fr" }]
        [Event.Recv (Result.ok { Name := "Ann", Locale := "fr" }),
          Event.AllTranslations { Message := "Hello", Locales := ["fr"] } none,
          Event.TranslatorRecv (Result.ok { Translation := "Bonjour" }),
          Event.Send { Message := "Bonjour, Ann!" } none,
          Event.TranslatorRecv (Result.err GoError.EOF)] ∧
      written (ManyHellos envOnce
        { inbound := [{ Name := "Ann", Locale := "fr" }, { Name := "Bob", Locale := "de" },
            { Name := "Cyd", Locale := "fr" }],
          fin := GoError.EOF }).2 = [{ Message := "Bonjour, Ann!" }] :=
  ⟨by decide,
    (ManyHellos_zero_translations envOnce [{ Name := "Ann", Locale := "fr" }]
      [Event.Recv (Result.ok { Name := "Ann", Locale := "fr" }),
        Event.AllTranslations { Message := "Hello", Locales := ["fr"] } none,
        Event.TranslatorRecv (Result.ok { Translation := "Bonjour" }),
        Event.Send { Message := "Bonjour, Ann!" } none,
        Event.TranslatorRecv (Result.err GoError.EOF)]
      { Name := "Bob", Locale := "de" } [{ Name := "Cyd", Locale := "fr" }] GoError.EOF
      (by decide) (by decide)).2⟩

/-- C3: when the first `Recv` on the inbound stream reports a clean end-of-input, `ManyHellos`
returns a status error of code `FailedPrecondition`; that `Recv` is the only call it makes, so
nothing is written and the translator is never called. -/
theorem ManyHellos_no_requests (env : Env) :
    (∃ msg, ManyHellos env { inbound := [], fin := GoError.EOF } =
        (some (GoError.status Code.FailedPrecondition msg),
          [Event.Recv (Result.err GoError.EOF)])) ∧
      written (ManyHellos env { inbound := [], fin := GoError.EOF }).2 = [] ∧
      ∀ ev ∈ (ManyHellos env { inbound := [], fin := GoError.EOF }).2,
        (∀ tReq err, ev ≠ Event.AllTranslations tReq err) ∧
          (∀ r, ev ≠ Event.TranslatorRecv r) := by
  have h : ManyHellos env { inbound := [], fin := GoError.EOF } =
      (some (GoError.status Code.FailedPrecondition "No requests received"),
        [Event.Recv (Result.err GoError.EOF)]) := rfl
  refine ⟨⟨_, h⟩, ?_, ?_⟩
  · rw [h]; rfl
  · rw [h]
    intro ev hev
    simp only [List.mem_singleton] at hev
    subst hev
    exact ⟨fun _ _ => by simp, fun _ => by simp⟩

/-- C4: when the requests `pre` have been processed successfully and the `AllTranslations` call
for the next request `inReq` fails with the error `e`, then in every session that continues with
`inReq`, whatever follows it, `ManyHellos` returns exactly `e`; the failed call is the last call it
makes, so no reply is written for `inReq`, no later request is read or answered, and what has been
written is what was written for `pre`. -/
theorem ManyHellos_open_fails (env : Env) (pre : List HelloRequest)
    (trPre : List Event) (inReq : HelloRequest) (rest : List HelloRequest) (fin e : GoError)
    (hpre : ProcessedOK env pre trPre)
    (hopen : env.AllTranslations (trPre ++ [Event.Recv (Result.ok inReq)])
      { Message := "Hello", Locales := [inReq.Locale] } = Result.err e) :
    ManyHellos env { inbound := pre ++ inReq :: rest, fin := fin } =
        (some e,
          trPre ++ [Event.Recv (Result.ok inReq),
            Event.AllTranslations { Message := "Hello", Locales := [inReq.Locale] } (some e)]) ∧
      written (ManyHellos env { inbound := pre ++ inReq :: rest, fin := fin }).2 =
        written trPre := by
  have h : ManyHellos env { inbound := pre ++ inReq :: rest, fin := fin } =
      (some e,
        trPre ++ [Event.Recv (Result.ok inReq),
          Event.AllTranslations { Message := "Hello", Locales := [inReq.Locale] } (some e)]) := by
    rw [ManyHellos_processed env pre trPre hpre, ManyHellosLoop_cons, hopen]
    simp
  refine ⟨h, ?_⟩
  rw [h]
  simp [written_append, written]

/-- C4, evaluated: `Ann` is answered, the translator rejects the call for `Bob`, `Cyd` is never
read. -/
theorem ManyHellos_open_fails_witness :
    ProcessedOK envReject [{ Name := "Ann", Locale := "fr" }]
        [Event.Recv (Result.ok { Name := "Ann", Locale := "fr" }),
          Event.AllTranslations { Message := "Hello", Locales := ["fr"] } none,
          Event.TranslatorRecv (Result.ok { Translation := "Bonjour" }),
          Event.Send { Message := "Bonjour, Ann!" } none,
          Event.TranslatorRecv (Result.err GoError.EOF)] ∧
      (ManyHellos envReject
        { inbound := [{ Name := "Ann", Locale := "fr" }, { Name := "Bob", Locale := "xx-INVALID" },
            { Name := "Cyd", Locale := "fr" }],
          fin := GoError.EOF }).1 = some (GoError.status Code.Unavailable "translator down") :=
  ⟨by decide,
    congrArg Prod.fst (ManyHellos_open_fails envReject [{ Name := "Ann", Locale := "fr" }]
      [Event.Recv (Result.ok { Name := "Ann", Locale := "fr" }),
        Event.AllTranslations { Message := "Hello", Locales := ["fr"] } none,
        Event.TranslatorRecv (Result.ok { Translation := "Bonjour" }),
        Event.Send { Message := "Bonjour, Ann!" } none,
        Event.TranslatorRecv (Result.err GoError.EOF)]
      { Name := "Bob", Locale := "xx-INVALID" } [{ Name := "Cyd", Locale := "fr" }] GoError.EOF
      (GoError.status Code.Unavailable "translator down") (by decide) (by decide)).1⟩

/-- C7: in every run of `ManyHellos`, a stream operation that reports a failure (a `Recv` on the
inbound or on the nested stream returning an error other than `io.EOF`, or a `Send` returning an
error) is the last call the handler makes, no earlier call has reported a failure, and the handler
returns that very error. -/
theorem ManyHellos_first_error (env : Env) (clientStream : ClientStream)
    (pre : List Event) (ev : Event) (post : List Event) (e : GoError)
    (hsplit : (ManyHellos env clientStream).2 = pre ++ ev :: post)
    (hev : Event.failure ev = some e) :
    (ManyHellos env clientStream).1 = some e ∧ post = [] ∧
      ∀ ev2 ∈ pre, Event.failure ev2 = none := by
  obtain ⟨new, hnew, hends⟩ :=
    ManyHellosLoop_ends env clientStream.fin clientStream.inbound 0 []
  have h2 : new = pre ++ ev :: post := by
    rw [← hsplit, ManyHellos, hnew]
    rfl
  obtain ⟨h3, h4, h5⟩ := EndsWith_failure_last hends pre ev post e h2 hev
  exact ⟨h4, h3, h5⟩

/-- C7, evaluated: the first `Send` fails and its error is what `ManyHellos` returns. -/
theorem ManyHellos_first_error_witness :
    (ManyHellos envBroken
        { inbound := [{ Name := "Ann", Locale := "fr" }, { Name := "Bob", Locale := "fr" }],
          fin := GoError.EOF }).2 =
        [Event.Recv (Result.ok { Name := "Ann", Locale := "fr" }),
          Event.AllTranslations { Message := "Hello", Locales := ["fr"] } none,
          Event.TranslatorRecv (Result.ok { Translation := "Bonjour" })] ++
        Event.Send { Message := "Bonjour, Ann!" }
          (some (GoError.status Code.Unavailable "transport is closing")) :: [] ∧
      (ManyHellos envBroken
        { inbound := [{ Name := "Ann", Locale := "fr" }, { Name := "Bob", Locale := "fr" }],
          fin := GoError.EOF }).1 =
        some (GoError.status Code.Unavailable "transport is closing") :=
  ⟨by decide,
    (ManyHellos_first_error envBroken
      { inbound := [{ Name := "Ann", Locale := "fr" }, { Name := "Bob", Locale := "fr" }],
        fin := GoError.EOF }
      [Event.Recv (Result.ok { Name := "Ann", Locale := "fr" }),
        Event.AllTranslations { Message := "Hello", Locales := ["fr"] } none,
        Event.TranslatorRecv (Result.ok { Translation := "Bonjour" })]
      (Event.Send { Message := "Bonjour, Ann!" }
        (some (GoError.status Code.Unavailable "transport is closing")))
      [] (GoError.status Code.Unavailable "transport is closing") (by decide) rfl).1⟩

/-- C9 as stated fails: for the locale `fr` the message of the `Aborted` status starts with a
capital `N`; it is not the all-lower-case text. -/
theorem ManyHellos_aborted_message_not_lowercase :
    (ManyHellos envNothing
        { inbound := [{ Name := "Ann", Locale := "fr" }], fin := GoError.EOF }).1 ≠
      some (GoError.status Code.Aborted
        "no translations found for \"Hello\" in locales matching \"fr\"") := by
  decide

/-- C9, amended: when the requests `pre` have been processed successfully and the next request
`inReq`, of locale `L`, gets a nested stream that ends cleanly without any item, `ManyHellos`
returns the `Aborted` status whose message is exactly
`No translations found for "Hello" in locales matching "L"`, the locale being inserted as it is. -/
theorem ManyHellos_aborted_message (env : Env) (pre : List HelloRequest)
    (trPre : List Event) (inReq : HelloRequest) (rest : List HelloRequest) (fin : GoError)
    (hpre : ProcessedOK env pre trPre)
    (hopen : env.AllTranslations (trPre ++ [Event.Recv (Result.ok inReq)])
      { Message := "Hello", Locales := [inReq.Locale] } =
        Result.ok { items := [], fin := GoError.EOF }) :
    (ManyHellos env { inbound := pre ++ inReq :: rest, fin := fin }).1 =
      some (GoError.status Code.Aborted
        ("No translations found for \"Hello\" in locales matching \"" ++ inReq.Locale ++
          "\"")) := by
  rw [ManyHellos_processed env pre trPre hpre, ManyHellosLoop_cons, hopen]
  simp [translatorLoop, abortedMessage]

/-- C9, amended, evaluated at the empty locale. -/
theorem ManyHellos_aborted_message_witness :
    ProcessedOK envNothing [] [] ∧
      (ManyHellos envNothing
        { inbound := [{ Name := "Ann", Locale := "" }], fin := GoError.EOF }).1 =
        some (GoError.status Code.Aborted
          "No translations found for \"Hello\" in locales matching \"\"") :=
  ⟨by decide,
    ManyHellos_aborted_message envNothing [] [] { Name := "Ann", Locale := "" } [] GoError.EOF
      (by decide) rfl⟩

/-- C10 as stated fails: the message of the `FailedPrecondition` status is not the
all-lower-case text. -/
theorem ManyHellos_no_requests_message_not_lowercase :
    (ManyHellos envNothing { inbound := [], fin := GoError.EOF }).1 ≠
      some (GoError.status Code.FailedPrecondition "no requests received") := by
  decide

/-- C10, amended: when the inbound stream ends cleanly before any request, the status returned
by `ManyHellos` has code `FailedPrecondition` and its message is exactly `No requests received`. -/
theorem ManyHellos_no_requests_message (env : Env) :
    (ManyHellos env { inbound := [], fin := GoError.EOF }).1 =
      some (GoError.status Code.FailedPrecondition "No requests received") :=
  rfl

/-! ## The unary handler `SayHello` -/

/-- C5: whatever the request and whatever `Translate` returns, `SayHello` returns a non-nil reply
and a nil error. -/
theorem SayHello_never_fails
    (Translate : Context → TranslationRequest → Result TranslationReply)
    (deadlineMs : Int) (now : Time) (ctx : Context) (inReq : HelloRequest) :
    ∃ reply, SayHello Translate deadlineMs now ctx inReq = (some reply, none) :=
  ⟨_, rfl⟩

/-- C6: the message of the reply of `SayHello` is the translation returned by
`Translate("Hello", inReq.Locale)`, followed by `", "`, the name and `"!"`, when that call
succeeds; when it fails, with whatever error, the message is `"Hello, "`, the name and `"!"`. -/
theorem SayHello_message
    (Translate : Context → TranslationRequest → Result TranslationReply)
    (deadlineMs : Int) (now : Time) (ctx : Context) (inReq : HelloRequest) :
    (∀ reply,
        Translate (WithDeadline ctx (clientDeadline deadlineMs now ctx))
            { Message := "Hello", Locale := inReq.Locale } = Result.ok reply →
        (SayHello Translate deadlineMs now ctx inReq).1 =
          some { Message := reply.Translation ++ ", " ++ inReq.Name ++ "!" }) ∧
      (∀ e,
        Translate (WithDeadline ctx (clientDeadline deadlineMs now ctx))
            { Message := "Hello", Locale := inReq.Locale } = Result.err e →
        (SayHello Translate deadlineMs now ctx inReq).1 =
          some { Message := "Hello, " ++ inReq.Name ++ "!" }) := by
  constructor
  · intro reply h
    simp only [SayHello, SayHelloTranslateArgs, h]
  · intro e h
    simp only [SayHello, SayHelloTranslateArgs, h]
    rfl

/-- C6, evaluated: a translated greeting and the fallback greeting. -/
theorem SayHello_message_witness :
    (SayHello translateBonjour 20000 0 { deadline := none } { Name := "Ann", Locale := "fr" }).1 =
        some { Message := "Bonjour, Ann!" } ∧
      (SayHello translateDown 20000 0 { deadline := none } { Name := "Ann", Locale := "" }).1 =
        some { Message := "Hello, Ann!" } :=
  ⟨(SayHello_message translateBonjour 20000 0 { deadline := none }
      { Name := "Ann", Locale := "fr" }).1 { Translation := "Bonjour" } rfl,
    (SayHello_message translateDown 20000 0 { deadline := none }
      { Name := "Ann", Locale := "" }).2 (GoError.status Code.Unavailable "translator down") rfl⟩

/-- C8 as stated fails: with `--deadline_ms=9223372036855` and no caller deadline, the `int64`
product `time.Duration(*deadlineMs) * time.Millisecond` wraps, and the deadline handed to
`Translate` lies in the past instead of `9223372036855` ms after `now`. -/
theorem SayHello_deadline_wraps :
    (SayHelloTranslateArgs 9223372036855 0 { deadline := none }
        { Name := "Ann", Locale := "fr" }).1.deadline = some (-9223372036854551616) ∧
      (SayHelloTranslateArgs 9223372036855 0 { deadline := none }
        { Name := "Ann", Locale := "fr" }).1.deadline ≠ some (0 + 9223372036855 * 1000000) := by
  decide

/-- C8, amended: the context `SayHello` hands to `Translate` carries the caller's deadline,
unchanged, whenever the inbound context has one; otherwise it carries `now` plus `deadlineMs`
milliseconds, for every `deadlineMs` from `-9223372036854` to `9223372036854` (the millisecond
counts whose nanosecond count fits an `int64`).  No other context reaches `Translate`. -/
theorem SayHello_deadline (deadlineMs : Int) (now : Time) (ctx : Context)
    (inReq : HelloRequest) :
    (∀ d, ctx.deadline = some d →
        (SayHelloTranslateArgs deadlineMs now ctx inReq).1.deadline = some d) ∧
      (ctx.deadline = none → -9223372036854 ≤ deadlineMs → deadlineMs ≤ 9223372036854 →
        (SayHelloTranslateArgs deadlineMs now ctx inReq).1.deadline =
          some (now + deadlineMs * 1000000)) ∧
      (∀ Translate : Context → TranslationRequest → Result TranslationReply,
        SayHello Translate deadlineMs now ctx inReq =
          SayHello (fun _ tReq => Translate (SayHelloTranslateArgs deadlineMs now ctx inReq).1 tReq)
            deadlineMs now ctx inReq) := by
  refine ⟨?_, ?_, fun _ => rfl⟩
  · intro d hd
    simp [SayHelloTranslateArgs, WithDeadline, clientDeadline, hd]
  · intro hnone hlo hhi
    have hw : wrapInt64 (deadlineMs * Millisecond) = deadlineMs * 1000000 := by
      unfold wrapInt64 Millisecond
      omega
    simp [SayHelloTranslateArgs, WithDeadline, clientDeadline, hnone, hw]

/-- C8, amended, evaluated: a caller deadline is kept, and the default of 20000 ms is added to
`now` when there is none. -/
theorem SayHello_deadline_witness :
    (SayHelloTranslateArgs 20000 5 { deadline := some 7 }
        { Name := "Ann", Locale := "fr" }).1.deadline = some 7 ∧
      (SayHelloTranslateArgs 20000 5 { deadline := none }
        { Name := "Ann", Locale := "fr" }).1.deadline = some (5 + 20000 * 1000000) :=
  ⟨(SayHello_deadline 20000 5 { deadline := some 7 } { Name := "Ann", Locale := "fr" }).1 7 rfl,
    (SayHello_deadline 20000 5 { deadline := none } { Name := "Ann", Locale := "fr" }).2.1 rfl
      (by decide) (by decide)⟩

/-! ## The shape of a run of `ManyHellos` -/

theorem translatorLoop_nil (env : Env) (inReq : HelloRequest) (fin : GoError) (tCount : Nat)
    (tr : List Event) :
    translatorLoop env inReq fin [] tCount tr =
      if fin = GoError.EOF then
        if tCount > 0 then (LoopExit.brk, tr ++ [Event.TranslatorRecv (Result.err fin)])
        else (LoopExit.ret (GoError.status Code.Aborted (abortedMessage inReq.Locale)),
          tr ++ [Event.TranslatorRecv (Result.err fin)])
      else (LoopExit.ret fin, tr ++ [Event.TranslatorRecv (Result.err fin)]) := by
  rw [translatorLoop]

theorem translatorLoop_cons_some (env : Env) (inReq : HelloRequest) (fin : GoError)
    (t : TranslationReply) (ts : List TranslationReply) (tCount : Nat) (tr : List Event)
    (e : GoError)
    (hs : env.Send (tr ++ [Event.TranslatorRecv (Result.ok t)])
      { Message := t.Translation ++ ", " ++ inReq.Name ++ "!" } = some e) :
    translatorLoop env inReq fin (t :: ts) tCount tr =
      (LoopExit.ret e,
        tr ++ [Event.TranslatorRecv (Result.ok t)] ++
          [Event.Send { Message := t.Translation ++ ", " ++ inReq.Name ++ "!" } (some e)]) := by
  rw [translatorLoop]
  simp only [hs]

theorem translatorLoop_cons_none (env : Env) (inReq : HelloRequest) (fin : GoError)
    (t : TranslationReply) (ts : List TranslationReply) (tCount : Nat) (tr : List Event)
    (hs : env.Send (tr ++ [Event.TranslatorRecv (Result.ok t)])
      { Message := t.Translation ++ ", " ++ inReq.Name ++ "!" } = none) :
    translatorLoop env inReq fin (t :: ts) tCount tr =
      translatorLoop env inReq fin ts (tCount + 1)
        (tr ++ [Event.TranslatorRecv (Result.ok t)] ++
          [Event.Send { Message := t.Translation ++ ", " ++ inReq.Name ++ "!" } none]) := by
  rw [translatorLoop]
  simp only [hs]

theorem answered_cons_append (inReq : HelloRequest) (t : TranslationReply)
    (ts : List TranslationReply) (tr rest : List Event) :
    tr ++ [Event.TranslatorRecv (Result.ok t)] ++
        [Event.Send { Message := t.Translation ++ ", " ++ inReq.Name ++ "!" } none] ++
        answered inReq ts ++ rest =
      tr ++ answered inReq (t :: ts) ++ rest := by
  simp [answered]

/-- The three ways the inner loop can end: it breaks after a clean end of a stream that gave at
least one item, it returns at the end of the stream, or it returns because a `Send` failed. -/
theorem translatorLoop_cases (env : Env) (inReq : HelloRequest) (fin : GoError)
    (ts : List TranslationReply) :
    ∀ (tCount : Nat) (tr : List Event),
      (fin = GoError.EOF ∧ 0 < tCount + ts.length ∧
        translatorLoop env inReq fin ts tCount tr =
          (LoopExit.brk,
            tr ++ answered inReq ts ++ [Event.TranslatorRecv (Result.err GoError.EOF)])) ∨
      (∃ e,
        ((fin = GoError.EOF ∧ tCount + ts.length = 0 ∧
            e = GoError.status Code.Aborted (abortedMessage inReq.Locale)) ∨
          (fin ≠ GoError.EOF ∧ e = fin)) ∧
        translatorLoop env inReq fin ts tCount tr =
          (LoopExit.ret e, tr ++ answered inReq ts ++ [Event.TranslatorRecv (Result.err fin)])) ∨
      (∃ ts1 t ts2 e, ts = ts1 ++ t :: ts2 ∧
        translatorLoop env inReq fin ts tCount tr =
          (LoopExit.ret e,
            tr ++ answered inReq ts1 ++
              [Event.TranslatorRecv (Result.ok t),
                Event.Send { Message := t.Translation ++ ", " ++ inReq.Name ++ "!" }
                  (some e)])) := by
  induction ts with
  | nil =>
    intro tCount tr
    rw [translatorLoop_nil]
    by_cases hfin : fin = GoError.EOF
    · subst hfin
      by_cases hc : tCount > 0
      · left
        simp [hc, answered]
      · right; left
        refine ⟨GoError.status Code.Aborted (abortedMessage inReq.Locale), ?_, ?_⟩
        · left
          exact ⟨rfl, by simp only [List.length_nil]; omega, rfl⟩
        · simp [hc, answered]
    · right; left
      refine ⟨fin, Or.inr ⟨hfin, rfl⟩, ?_⟩
      simp [hfin, answered]
  | cons t ts ih =>
    intro tCount tr
    cases hs : env.Send (tr ++ [Event.TranslatorRecv (Result.ok t)])
        { Message := t.Translation ++ ", " ++ inReq.Name ++ "!" } with
    | some e =>
      right; right
      refine ⟨[], t, ts, e, rfl, ?_⟩
      rw [translatorLoop_cons_some env inReq fin t ts tCount tr e hs]
      simp [answered]
    | none =>
      rw [translatorLoop_cons_none env inReq fin t ts tCount tr hs]
      rcases ih (tCount + 1) (tr ++ [Event.TranslatorRecv (Result.ok t)] ++
          [Event.Send { Message := t.Translation ++ ", " ++ inReq.Name ++ "!" } none]) with
        ⟨h1, h2, h3⟩ | ⟨e, h1, h2⟩ | ⟨ts1, t2, ts2, e, h1, h2⟩
      · left
        refine ⟨h1, by simp only [List.length_cons]; omega, ?_⟩
        rw [h3, answered_cons_append]
      · right; left
        refine ⟨e, ?_, ?_⟩
        · rcases h1 with ⟨_, h12, _⟩ | h1
          · omega
          · exact Or.inr h1
        · rw [h2, answered_cons_append]
      · right; right
        refine ⟨t :: ts1, t2, ts2, e, by rw [h1]; rfl, ?_⟩
        rw [h2, answered_cons_append]

/-- Every run of the outer loop answers some requests in full, one after the other, and then
ends in one of the four ways of `Ending`. -/
theorem ManyHellosLoop_shape (env : Env) (fin : GoError) (reqs : List HelloRequest) :
    ∀ (inCount : Nat) (tr : List Event), ∃ done ending,
      ManyHellosLoop env fin reqs inCount tr =
          (Ending.result (inCount + done.length) ending,
            tr ++ segments done ++ Ending.events ending) ∧
        (∀ p ∈ done, p.2 ≠ []) ∧ Ending.Valid ending ∧
        (∀ f, ending = Ending.inboundEnd f → f = fin ∧ reqs = done.map Prod.fst) := by
  induction reqs with
  | nil =>
    intro inCount tr
    refine ⟨[], Ending.inboundEnd fin, ?_, by simp, trivial, ?_⟩
    · simp only [ManyHellosLoop, Ending.result, Ending.events, segments, List.length_nil,
        Nat.add_zero, List.append_nil]
      split_ifs <;> rfl
    · intro f hf
      cases hf
      exact ⟨rfl, rfl⟩
  | cons inReq rest ih =>
    intro inCount tr
    rw [ManyHellosLoop_cons]
    cases ho : env.AllTranslations (tr ++ [Event.Recv (Result.ok inReq)])
        { Message := "Hello", Locales := [inReq.Locale] } with
    | err e =>
      refine ⟨[], Ending.openFailed inReq e, ?_, by simp, trivial, ?_⟩
      · simp [Ending.result, Ending.events, segments]
      · intro f hf
        cases hf
    | ok translatorStream =>
      simp only
      rcases translatorLoop_cases env inReq translatorStream.fin translatorStream.items 0
          (tr ++ [Event.Recv (Result.ok inReq)] ++
            [Event.AllTranslations { Message := "Hello", Locales := [inReq.Locale] } none]) with
        ⟨h1, h2, h3⟩ | ⟨e, h1, h2⟩ | ⟨ts1, t, ts2, e, h1, h2⟩
      · rw [h3]
        simp only
        obtain ⟨done, ending, hrun, hne, hvalid, hin⟩ := ih (inCount + 1)
          (tr ++ [Event.Recv (Result.ok inReq)] ++
            [Event.AllTranslations { Message := "Hello", Locales := [inReq.Locale] } none] ++
            answered inReq translatorStream.items ++
            [Event.TranslatorRecv (Result.err GoError.EOF)])
        refine ⟨(inReq, translatorStream.items) :: done, ending, ?_, ?_, hvalid, ?_⟩
        · rw [hrun]
          have hlen : inCount + 1 + done.length =
              inCount + ((inReq, translatorStream.items) :: done).length := by
            simp only [List.length_cons]
            omega
          rw [hlen]
          simp [segments, segment]
        · intro p hp
          rcases List.mem_cons.mp hp with hp | hp
          · subst hp
            intro hnil
            simp only at hnil
            rw [hnil] at h2
            simp at h2
          · exact hne p hp
        · intro f hf
          obtain ⟨hf1, hf2⟩ := hin f hf
          exact ⟨hf1, by simp [hf2]⟩
      · rw [h2]
        simp only
        refine ⟨[], Ending.nestedEnd inReq translatorStream.items translatorStream.fin,
          ?_, by simp, ?_, ?_⟩
        · rcases h1 with ⟨h11, _, h13⟩ | ⟨h11, h13⟩
          · simp [Ending.result, Ending.events, segments, h11, h13]
          · simp [Ending.result, Ending.events, segments, h11, h13]
        · intro hfin
          rcases h1 with ⟨_, h12, _⟩ | ⟨h11, _⟩
          · exact List.length_eq_zero.mp (by omega)
          · exact absurd hfin h11
        · intro f hf
          cases hf
      · rw [h2]
        simp only
        refine ⟨[], Ending.sendFailed inReq ts1 t e, ?_, by simp, trivial, ?_⟩
        · simp [Ending.result, Ending.events, segments]
        · intro f hf
          cases hf

/-- The shape of a run of `ManyHellos`. -/
theorem ManyHellos_shape (env : Env) (clientStream : ClientStream) :
    ∃ done ending,
      ManyHellos env clientStream =
          (Ending.result done.length ending, segments done ++ Ending.events ending) ∧
        (∀ p ∈ done, p.2 ≠ []) ∧ Ending.Valid ending ∧
        (∀ f, ending = Ending.inboundEnd f →
          f = clientStream.fin ∧ clientStream.inbound = done.map Prod.fst) := by
  obtain ⟨done, ending, hrun, hne, hvalid, hin⟩ :=
    ManyHellosLoop_shape env clientStream.fin clientStream.inbound 0 []
  refine ⟨done, ending, ?_, hne, hvalid, hin⟩
  rw [ManyHellos, hrun]
  simp

theorem received_append (a b : List Event) : received (a ++ b) = received a ++ received b := by
  induction a with
  | nil => rfl
  | cons ev a ih =>
    cases ev with
    | TranslatorRecv r =>
      cases r with
      | ok t => simp [received, ih]
      | err e => simp [received, ih]
    | Recv r => simp [received, ih]
    | AllTranslations q err => simp [received, ih]
    | Send reply err => simp [received, ih]

theorem received_answered (inReq : HelloRequest) (ts : List TranslationReply) :
    received (answered inReq ts) = ts := by
  induction ts with
  | nil => rfl
  | cons t ts ih => simp [answered, received, ih]

theorem written_segment (inReq : HelloRequest) (ts : List TranslationReply) :
    written (segment inReq ts) =
      ts.map (fun t => ({ Message := t.Translation ++ ", " ++ inReq.Name ++ "!" } : HelloReply)) := by
  simp [segment, written, written_append, written_answered]

theorem received_segment (inReq : HelloRequest) (ts : List TranslationReply) :
    received (segment inReq ts) = ts := by
  simp [segment, received, received_append, received_answered]

theorem written_segments (done : List (HelloRequest × List TranslationReply)) :
    written (segments done) = greetings done := by
  induction done with
  | nil => rfl
  | cons p ps ih => simp [segments, greetings, written_append, written_segment, ih]

theorem received_segments (done : List (HelloRequest × List TranslationReply)) :
    received (segments done) = itemsOf done := by
  induction done with
  | nil => rfl
  | cons p ps ih => simp [segments, itemsOf, received_append, received_segment, ih]

theorem greetings_length (done : List (HelloRequest × List TranslationReply)) :
    (greetings done).length = (itemsOf done).length := by
  induction done with
  | nil => rfl
  | cons p ps ih => simp [greetings, itemsOf, ih]

theorem expectedFrom_answered (inReq : HelloRequest) (ts : List TranslationReply)
    (rest : List Event) :
    expectedFrom (some inReq) (answered inReq ts ++ rest) =
      ts.map (fun t => ({ Message := t.Translation ++ ", " ++ inReq.Name ++ "!" } : HelloReply)) ++
        expectedFrom (some inReq) rest := by
  induction ts with
  | nil => rfl
  | cons t ts ih => simp [answered, expectedFrom, ih]

theorem expectedFrom_segment (cur : Option HelloRequest) (inReq : HelloRequest)
    (ts : List TranslationReply) (rest : List Event) :
    expectedFrom cur (segment inReq ts ++ rest) =
      ts.map (fun t => ({ Message := t.Translation ++ ", " ++ inReq.Name ++ "!" } : HelloReply)) ++
        expectedFrom (some inReq) rest := by
  have hseg : segment inReq ts ++ rest =
      Event.Recv (Result.ok inReq) ::
        Event.AllTranslations { Message := "Hello", Locales := [inReq.Locale] } none ::
          (answered inReq ts ++ (Event.TranslatorRecv (Result.err GoError.EOF) :: rest)) := by
    simp [segment]
  rw [hseg]
  simp only [expectedFrom]
  rw [expectedFrom_answered]
  simp [expectedFrom]

/-- The greetings due in an ending do not depend on what came before it. -/
theorem expectedFrom_ending (cur : Option HelloRequest) (ending : Ending) :
    expectedFrom cur (Ending.events ending) = expectedFrom none (Ending.events ending) := by
  cases ending with
  | inboundEnd fin => simp [Ending.events, expectedFrom]
  | openFailed inReq e => simp [Ending.events, expectedFrom]
  | nestedEnd inReq ts fin => simp [Ending.events, expectedFrom]
  | sendFailed inReq ts t e => simp [Ending.events, expectedFrom]

theorem expectedFrom_segments (done : List (HelloRequest × List TranslationReply))
    (ending : Ending) :
    ∀ cur, expectedFrom cur (segments done ++ Ending.events ending) =
      greetings done ++ expectedFrom none (Ending.events ending) := by
  induction done with
  | nil =>
    intro cur
    simpa [segments, greetings] using expectedFrom_ending cur ending
  | cons p ps ih =>
    intro cur
    simp only [segments, greetings, List.append_assoc]
    rw [expectedFrom_segment, ih]

/-- In an ending, what has been written is the beginning of what is due, and no more than the
items received. -/
theorem Ending_written (ending : Ending) :
    written (Ending.events ending) <+: expectedFrom none (Ending.events ending) ∧
      (written (Ending.events ending)).length ≤ (received (Ending.events ending)).length := by
  cases ending with
  | inboundEnd fin => simp [Ending.events, written, expectedFrom, received]
  | openFailed inReq e => simp [Ending.events, written, expectedFrom, received]
  | nestedEnd inReq ts fin =>
    simp only [Ending.events, written, expectedFrom, received]
    rw [expectedFrom_answered, written_append, received_append, written_answered,
      received_answered]
    simp [written, expectedFrom, received]
  | sendFailed inReq ts t e =>
    simp only [Ending.events, written, expectedFrom, received]
    rw [expectedFrom_answered, written_append, received_append, written_answered,
      received_answered]
    simp [written, expectedFrom, received]

/-- An ending whose result is `nil` is the clean end of the inbound stream, after at least one
request. -/
theorem Ending_result_none (n : Nat) (ending : Ending) (h : Ending.result n ending = none) :
    ending = Ending.inboundEnd GoError.EOF ∧ 0 < n := by
  cases ending with
  | inboundEnd fin =>
    simp only [Ending.result] at h
    split_ifs at h with h1 h2
    · exact ⟨by rw [h1], h2⟩
  | openFailed inReq e => simp [Ending.result] at h
  | nestedEnd inReq ts fin =>
    simp only [Ending.result] at h
    split_ifs at h
  | sendFailed inReq ts t e => simp [Ending.result] at h

theorem Ending_events_last (ending : Ending) :
    ∃ init, Ending.events ending = init ++ [Ending.last ending] := by
  cases ending with
  | inboundEnd fin => exact ⟨[], rfl⟩
  | openFailed inReq e => exact ⟨[Event.Recv (Result.ok inReq)], rfl⟩
  | nestedEnd inReq ts fin =>
    exact ⟨Event.Recv (Result.ok inReq) ::
      Event.AllTranslations { Message := "Hello", Locales := [inReq.Locale] } none ::
        answered inReq ts, by simp [Ending.events, Ending.last]⟩
  | sendFailed inReq ts t e =>
    exact ⟨Event.Recv (Result.ok inReq) ::
      Event.AllTranslations { Message := "Hello", Locales := [inReq.Locale] } none ::
        (answered inReq ts ++ [Event.TranslatorRecv (Result.ok t)]),
      by simp [Ending.events, Ending.last]⟩

theorem segments_ne_nil (done : List (HelloRequest × List TranslationReply)) (h : done ≠ []) :
    segments done ≠ [] := by
  cases done with
  | nil => exact absurd rfl h
  | cons p ps => simp [segments, segment]

/-! ## Every call in its place -/

theorem Justified_nil (env : Env) : Justified env [] := by
  intro a ev b h
  simp at h

theorem Justified_snoc (env : Env) (l : List Event) (ev : Event) (hl : Justified env l)
    (hev : Allowed env l ev) : Justified env (l ++ [ev]) := by
  intro a ev2 b h
  rcases List.eq_nil_or_concat b with hb | ⟨b2, x, hb⟩
  · subst hb
    obtain ⟨h1, h2⟩ := List.append_inj' h rfl
    have h3 : ev = ev2 := by simpa using h2
    subst h3
    subst h1
    exact hev
  · subst hb
    have h1 : l ++ [ev] = (a ++ ev2 :: b2) ++ [x] := by
      rw [h]; simp
    obtain ⟨h2, _⟩ := List.append_inj' h1 rfl
    exact hl a ev2 b2 h2

theorem lastRequest_snoc_Recv (h : List Event) (inReq : HelloRequest) :
    lastRequest (h ++ [Event.Recv (Result.ok inReq)]) = some inReq := by
  simp [lastRequest, List.foldl_append]

theorem lastRequest_snoc_AllTranslations (h : List Event) (tReq : AllTranslationsRequest)
    (err : Option GoError) :
    lastRequest (h ++ [Event.AllTranslations tReq err]) = lastRequest h := by
  simp [lastRequest, List.foldl_append]

theorem lastRequest_snoc_TranslatorRecv (h : List Event) (r : Result TranslationReply) :
    lastRequest (h ++ [Event.TranslatorRecv r]) = lastRequest h := by
  simp [lastRequest, List.foldl_append]

theorem lastRequest_snoc_Send (h : List Event) (reply : HelloReply) (err : Option GoError) :
    lastRequest (h ++ [Event.Send reply err]) = lastRequest h := by
  simp [lastRequest, List.foldl_append]

/-- The calls of the inner loop are each in their place, when the loop is entered right after the
stream was opened or after a successful `Send`, while `inReq` is being processed. -/
theorem translatorLoop_justified (env : Env) (inReq : HelloRequest) (fin : GoError)
    (ts : List TranslationReply) :
    ∀ (tCount : Nat) (tr : List Event), Justified env tr → lastRequest tr = some inReq →
      Allowed env tr (Event.TranslatorRecv (Result.err fin)) →
      Justified env (translatorLoop env inReq fin ts tCount tr).2 := by
  induction ts with
  | nil =>
    intro tCount tr hj _ hal
    have htr : (translatorLoop env inReq fin [] tCount tr).2 =
        tr ++ [Event.TranslatorRecv (Result.err fin)] := by
      rw [translatorLoop_nil]
      split_ifs <;> rfl
    rw [htr]
    exact Justified_snoc env tr _ hj hal
  | cons t ts ih =>
    intro tCount tr hj hlast hal
    have hj1 : Justified env (tr ++ [Event.TranslatorRecv (Result.ok t)]) :=
      Justified_snoc env tr _ hj hal
    cases hs : env.Send (tr ++ [Event.TranslatorRecv (Result.ok t)])
        { Message := t.Translation ++ ", " ++ inReq.Name ++ "!" } with
    | some e =>
      rw [translatorLoop_cons_some env inReq fin t ts tCount tr e hs]
      exact Justified_snoc env _ _ hj1 ⟨tr, inReq, t, rfl, hlast, rfl⟩
    | none =>
      rw [translatorLoop_cons_none env inReq fin t ts tCount tr hs]
      refine ih (tCount + 1) _ (Justified_snoc env _ _ hj1 ⟨tr, inReq, t, rfl, hlast, rfl⟩) ?_ ?_
      · rw [lastRequest_snoc_Send, lastRequest_snoc_TranslatorRecv]
        exact hlast
      · exact Or.inr ⟨_, _, rfl⟩

/-- The calls of the outer loop are each in their place, when the loop is entered at its top. -/
theorem ManyHellosLoop_justified (env : Env) (fin : GoError) (reqs : List HelloRequest) :
    ∀ (inCount : Nat) (tr : List Event), Justified env tr → AtHead env tr →
      Justified env (ManyHellosLoop env fin reqs inCount tr).2 := by
  induction reqs with
  | nil =>
    intro inCount tr hj hhead
    have htr : (ManyHellosLoop env fin [] inCount tr).2 =
        tr ++ [Event.Recv (Result.err fin)] := by
      simp only [ManyHellosLoop]
      split_ifs <;> rfl
    rw [htr]
    exact Justified_snoc env tr _ hj hhead
  | cons inReq rest ih =>
    intro inCount tr hj hhead
    have hj1 : Justified env (tr ++ [Event.Recv (Result.ok inReq)]) :=
      Justified_snoc env tr _ hj hhead
    rw [ManyHellosLoop_cons]
    cases ho : env.AllTranslations (tr ++ [Event.Recv (Result.ok inReq)])
        { Message := "Hello", Locales := [inReq.Locale] } with
    | err e =>
      exact Justified_snoc env _ _ hj1 ⟨tr, inReq, rfl, rfl⟩
    | ok translatorStream =>
      simp only
      have hj2 : Justified env (tr ++ [Event.Recv (Result.ok inReq)] ++
          [Event.AllTranslations { Message := "Hello", Locales := [inReq.Locale] } none]) :=
        Justified_snoc env _ _ hj1 ⟨tr, inReq, rfl, rfl⟩
      have hlast : lastRequest (tr ++ [Event.Recv (Result.ok inReq)] ++
          [Event.AllTranslations { Message := "Hello", Locales := [inReq.Locale] } none]) =
            some inReq := by
        rw [lastRequest_snoc_AllTranslations, lastRequest_snoc_Recv]
      have hj3 := translatorLoop_justified env inReq translatorStream.fin translatorStream.items
        0 _ hj2 hlast (Or.inl ⟨_, _, rfl⟩)
      rcases translatorLoop_cases env inReq translatorStream.fin translatorStream.items 0
          (tr ++ [Event.Recv (Result.ok inReq)] ++
            [Event.AllTranslations { Message := "Hello", Locales := [inReq.Locale] } none]) with
        ⟨h1, h2, h3⟩ | ⟨e, _, h2⟩ | ⟨ts1, t, ts2, e, _, h2⟩
      · rw [h3] at hj3 ⊢
        simp only at hj3 ⊢
        refine ih (inCount + 1) _ hj3 (Or.inr ⟨tr, inReq, translatorStream, ho, h1, ?_, ?_⟩)
        · intro hnil
          rw [hnil] at h2
          simp at h2
        · simp [segment]
      · rw [h2] at hj3 ⊢
        exact hj3
      · rw [h2] at hj3 ⊢
        exact hj3

/-- In a run of `ManyHellos` every call is in its place. -/
theorem ManyHellos_justified (env : Env) (clientStream : ClientStream) :
    Justified env (ManyHellos env clientStream).2 :=
  ManyHellosLoop_justified env clientStream.fin clientStream.inbound 0 []
    (Justified_nil env) (Or.inl rfl)

theorem answered_isRecv (inReq : HelloRequest) (ts : List TranslationReply) :
    ∀ ev ∈ answered inReq ts, Event.isRecv ev = false := by
  induction ts with
  | nil => intro ev hev; cases hev
  | cons t ts ih =>
    intro ev hev
    simp only [answered, List.mem_cons] at hev
    rcases hev with h | h | h
    · rw [h]; rfl
    · rw [h]; rfl
    · exact ih ev h

/-- Two ways of cutting a list at a `Recv` that is followed by no other `Recv` agree. -/
theorem split_at_last_Recv (a h0 m1 m2 : List Event) (x y : Result HelloRequest)
    (h : a ++ Event.Recv x :: m1 = h0 ++ Event.Recv y :: m2)
    (hm1 : ∀ ev ∈ m1, Event.isRecv ev = false) (hm2 : ∀ ev ∈ m2, Event.isRecv ev = false) :
    a = h0 ∧ x = y ∧ m1 = m2 := by
  rcases List.append_eq_append_iff.mp h with ⟨c, hc1, hc2⟩ | ⟨c, hc1, hc2⟩
  · cases c with
    | nil =>
      simp only [List.nil_append, List.cons.injEq, Event.Recv.injEq] at hc2
      exact ⟨by simpa using hc1.symm, hc2.1, hc2.2⟩
    | cons z c =>
      simp only [List.cons_append, List.cons.injEq] at hc2
      have hmem : Event.Recv y ∈ m1 := by rw [hc2.2]; simp
      have := hm1 _ hmem
      simp [Event.isRecv] at this
  · cases c with
    | nil =>
      simp only [List.nil_append, List.cons.injEq, Event.Recv.injEq] at hc2
      exact ⟨by simpa using hc1, hc2.1.symm, hc2.2.symm⟩
    | cons z c =>
      simp only [List.cons_append, List.cons.injEq] at hc2
      have hmem : Event.Recv x ∈ m2 := by rw [hc2.2]; simp
      have := hm2 _ hmem
      simp [Event.isRecv] at this

/-- A run of `ManyHellos` does not stop right after the receipt of a request. -/
theorem ManyHellos_last_not_request (env : Env) (clientStream : ClientStream)
    (a : List Event) (inReq : HelloRequest) :
    (ManyHellos env clientStream).2 ≠ a ++ [Event.Recv (Result.ok inReq)] := by
  obtain ⟨done, ending, hrun, _, _, _⟩ := ManyHellos_shape env clientStream
  obtain ⟨init, hinit⟩ := Ending_events_last ending
  intro h
  rw [hrun] at h
  simp only at h
  rw [hinit, ← List.append_assoc] at h
  obtain ⟨_, hlast⟩ := List.append_inj' h rfl
  have hlast2 : Ending.last ending = Event.Recv (Result.ok inReq) := by simpa using hlast
  cases ending with
  | inboundEnd fin => simp [Ending.last] at hlast2
  | openFailed r e => simp [Ending.last] at hlast2
  | nestedEnd r ts fin => simp [Ending.last] at hlast2
  | sendFailed r ts t e => simp [Ending.last] at hlast2

theorem segment_snoc (inReq : HelloRequest) (ts : List TranslationReply) :
    segment inReq ts =
      (Event.Recv (Result.ok inReq) ::
        Event.AllTranslations { Message := "Hello", Locales := [inReq.Locale] } none ::
          answered inReq ts) ++ [Event.TranslatorRecv (Result.err GoError.EOF)] := by
  simp [segment]

/-- A greeting is never empty and contains the name it is made from. -/
theorem greeting_contains_name (pfx name : String) :
    pfx ++ ", " ++ name ++ "!" ≠ "" ∧ Contains (pfx ++ ", " ++ name ++ "!") name := by
  constructor
  · intro h
    have hd := congrArg String.data h
    simp [String.data_append] at hd
  · exact ⟨(pfx ++ ", ").data, "!".data, by simp [String.data_append]⟩

/-! ## Order and content of the calls of `ManyHellos` -/

/-- C13: in every run of `ManyHellos`, between two consecutive `Recv` calls on the inbound stream
(no other inbound `Recv` lying between them) the earlier `Recv` has returned a request, the nested
stream was opened for it, all the items of that stream (at least one) were received, each followed
by the successful `Send` of its reply, and the nested stream has reported its clean end: these are
exactly the calls made between the two `Recv` calls. -/
theorem ManyHellos_drains_before_next_request (env : Env) (clientStream : ClientStream)
    (a : List Event) (r1 r2 : Result HelloRequest) (mid b : List Event)
    (hsplit : (ManyHellos env clientStream).2 =
      a ++ Event.Recv r1 :: (mid ++ Event.Recv r2 :: b))
    (hmid : ∀ ev ∈ mid, Event.isRecv ev = false) :
    ∃ inReq translatorStream,
      r1 = Result.ok inReq ∧
        env.AllTranslations (a ++ [Event.Recv (Result.ok inReq)])
            { Message := "Hello", Locales := [inReq.Locale] } = Result.ok translatorStream ∧
        translatorStream.fin = GoError.EOF ∧ translatorStream.items ≠ [] ∧
        mid =
          Event.AllTranslations { Message := "Hello", Locales := [inReq.Locale] } none ::
            (answered inReq translatorStream.items ++
              [Event.TranslatorRecv (Result.err GoError.EOF)]) := by
  have hj := ManyHellos_justified env clientStream (a ++ Event.Recv r1 :: mid) (Event.Recv r2) b
    (by rw [hsplit]; simp)
  rcases hj with hnil | ⟨h0, inReq, translatorStream, hopen, hfin, hne, hseg⟩
  · simp at hnil
  · have hbody : ∀ ev ∈
        Event.AllTranslations { Message := "Hello", Locales := [inReq.Locale] } none ::
          (answered inReq translatorStream.items ++
            [Event.TranslatorRecv (Result.err GoError.EOF)]), Event.isRecv ev = false := by
      intro ev hev
      simp only [List.mem_cons, List.mem_append, List.mem_singleton, List.not_mem_nil,
        or_false] at hev
      rcases hev with h | h | h
      · rw [h]; rfl
      · exact answered_isRecv inReq _ ev h
      · rw [h]; rfl
    obtain ⟨h1, h2, h3⟩ := split_at_last_Recv a h0 mid _ r1 (Result.ok inReq) hseg hmid hbody
    subst h1
    exact ⟨inReq, translatorStream, h2, hopen, hfin, hne, h3⟩

/-- C13, evaluated: between the receipt of `Ann` and the receipt of `Bob`. -/
theorem ManyHellos_drains_before_next_request_witness :
    (∀ ev ∈ [Event.AllTranslations { Message := "Hello", Locales := ["fr"] } none,
        Event.TranslatorRecv (Result.ok { Translation := "Bonjour" }),
        Event.Send { Message := "Bonjour, Ann!" } none,
        Event.TranslatorRecv (Result.err GoError.EOF)], Event.isRecv ev = false) ∧
      ∃ inReq translatorStream,
        Result.ok { Name := "Ann", Locale := "fr" } = Result.ok inReq ∧
          envBonjour.AllTranslations ([] ++ [Event.Recv (Result.ok inReq)])
              { Message := "Hello", Locales := [inReq.Locale] } = Result.ok translatorStream ∧
          translatorStream.fin = GoError.EOF ∧ translatorStream.items ≠ [] ∧
          [Event.AllTranslations { Message := "Hello", Locales := ["fr"] } none,
              Event.TranslatorRecv (Result.ok { Translation := "Bonjour" }),
              Event.Send { Message := "Bonjour, Ann!" } none,
              Event.TranslatorRecv (Result.err GoError.EOF)] =
            Event.AllTranslations { Message := "Hello", Locales := [inReq.Locale] } none ::
              (answered inReq translatorStream.items ++
                [Event.TranslatorRecv (Result.err GoError.EOF)]) :=
  ⟨by decide,
    ManyHellos_drains_before_next_request envBonjour
      { inbound := [{ Name := "Ann", Locale := "fr" }, { Name := "Bob", Locale := "fr" }],
        fin := GoError.EOF }
      [] (Result.ok { Name := "Ann", Locale := "fr" }) (Result.ok { Name := "Bob", Locale := "fr" })
      [Event.AllTranslations { Message := "Hello", Locales := ["fr"] } none,
        Event.TranslatorRecv (Result.ok { Translation := "Bonjour" }),
        Event.Send { Message := "Bonjour, Ann!" } none,
        Event.TranslatorRecv (Result.err GoError.EOF)]
      [Event.AllTranslations { Message := "Hello", Locales := ["fr"] } none,
        Event.TranslatorRecv (Result.ok { Translation := "Bonjour" }),
        Event.Send { Message := "Bonjour, Bob!" } none,
        Event.TranslatorRecv (Result.err GoError.EOF),
        Event.Recv (Result.err GoError.EOF)]
      (by decide) (by decide)⟩

/-- C14: every reply of the full server has a message that is not empty and contains the name of
its request.  For `SayHello` this is the reply returned, whatever `Translate` answers; for
`ManyHellos` it is the reply handed to any `Send`, the request being the one most recently
received.  Names and translations may be empty. -/
theorem replies_contain_name :
    (∀ (Translate : Context → TranslationRequest → Result TranslationReply)
        (deadlineMs : Int) (now : Time) (ctx : Context) (inReq : HelloRequest),
        ∃ reply, (SayHello Translate deadlineMs now ctx inReq).1 = some reply ∧
          reply.Message ≠ "" ∧ Contains reply.Message inReq.Name) ∧
      (∀ (env : Env) (clientStream : ClientStream) (a : List Event) (reply : HelloReply)
        (err : Option GoError) (b : List Event),
        (ManyHellos env clientStream).2 = a ++ Event.Send reply err :: b →
        ∃ inReq, lastRequest a = some inReq ∧
          reply.Message ≠ "" ∧ Contains reply.Message inReq.Name) := by
  constructor
  · intro Translate deadlineMs now ctx inReq
    refine ⟨_, rfl, ?_⟩
    exact greeting_contains_name _ inReq.Name
  · intro env clientStream a reply err b hsplit
    obtain ⟨h0, inReq, t, ha, hlast, hreply⟩ :=
      ManyHellos_justified env clientStream a (Event.Send reply err) b hsplit
    refine ⟨inReq, ?_, ?_⟩
    · rw [ha, lastRequest_snoc_TranslatorRecv]
      exact hlast
    · rw [hreply]
      exact greeting_contains_name t.Translation inReq.Name

/-- C14, evaluated: the reply sent to `Ann` by `ManyHellos`. -/
theorem replies_contain_name_witness :
    (ManyHellos envBonjour
        { inbound := [{ Name := "Ann", Locale := "fr" }], fin := GoError.EOF }).2 =
        [Event.Recv (Result.ok { Name := "Ann", Locale := "fr" }),
          Event.AllTranslations { Message := "Hello", Locales := ["fr"] } none,
          Event.TranslatorRecv (Result.ok { Translation := "Bonjour" })] ++
        Event.Send { Message := "Bonjour, Ann!" } none ::
          [Event.TranslatorRecv (Result.err GoError.EOF),
            Event.Recv (Result.err GoError.EOF)] ∧
      ∃ inReq,
        lastRequest [Event.Recv (Result.ok { Name := "Ann", Locale := "fr" }),
          Event.AllTranslations { Message := "Hello", Locales := ["fr"] } none,
          Event.TranslatorRecv (Result.ok { Translation := "Bonjour" })] = some inReq ∧
        ({ Message := "Bonjour, Ann!" } : HelloReply).Message ≠ "" ∧
        Contains ({ Message := "Bonjour, Ann!" } : HelloReply).Message inReq.Name :=
  ⟨by decide,
    replies_contain_name.2 envBonjour
      { inbound := [{ Name := "Ann", Locale := "fr" }], fin := GoError.EOF }
      [Event.Recv (Result.ok { Name := "Ann", Locale := "fr" }),
        Event.AllTranslations { Message := "Hello", Locales := ["fr"] } none,
        Event.TranslatorRecv (Result.ok { Translation := "Bonjour" })]
      { Message := "Bonjour, Ann!" } none
      [Event.TranslatorRecv (Result.err GoError.EOF), Event.Recv (Result.err GoError.EOF)]
      (by decide)⟩

/-- C15: in every run of `ManyHellos`, every `AllTranslations` call is made right after the
receipt of a request `inReq`, and the request passed has `Message` exactly `Hello` and `Locales`
exactly the one-element list `[inReq.Locale]`; conversely the receipt of a request `inReq` is
always followed at once by such a call.  Nothing of an earlier request enters. -/
theorem ManyHellos_translation_request (env : Env) (clientStream : ClientStream) :
    (∀ (a : List Event) (tReq : AllTranslationsRequest) (err : Option GoError) (b : List Event),
        (ManyHellos env clientStream).2 = a ++ Event.AllTranslations tReq err :: b →
        ∃ a0 inReq, a = a0 ++ [Event.Recv (Result.ok inReq)] ∧
          tReq.Message = "Hello" ∧ tReq.Locales = [inReq.Locale] ∧ tReq.Locales.length = 1) ∧
      (∀ (a : List Event) (inReq : HelloRequest) (b : List Event),
        (ManyHellos env clientStream).2 = a ++ Event.Recv (Result.ok inReq) :: b →
        ∃ err b2, b =
          Event.AllTranslations { Message := "Hello", Locales := [inReq.Locale] } err :: b2) := by
  constructor
  · intro a tReq err b hsplit
    obtain ⟨a0, inReq, ha, hreq⟩ :=
      ManyHellos_justified env clientStream a (Event.AllTranslations tReq err) b hsplit
    exact ⟨a0, inReq, ha, by rw [hreq], by rw [hreq], by rw [hreq]; rfl⟩
  · intro a inReq b hsplit
    cases b with
    | nil => exact absurd hsplit (ManyHellos_last_not_request env clientStream a inReq)
    | cons ev b2 =>
      have hal := ManyHellos_justified env clientStream
        (a ++ [Event.Recv (Result.ok inReq)]) ev b2 (by rw [hsplit]; simp)
      cases ev with
      | Recv x =>
        rcases hal with hnil | ⟨h0, r, translatorStream, _, _, _, hseg⟩
        · simp at hnil
        · rw [segment_snoc, ← List.append_assoc] at hseg
          obtain ⟨_, hl⟩ := List.append_inj' hseg rfl
          simp at hl
      | AllTranslations tReq err =>
        obtain ⟨h0, r, hh, hreq⟩ := hal
        obtain ⟨_, hl⟩ := List.append_inj' hh rfl
        have hr : inReq = r := by simpa using hl
        subst hr
        exact ⟨err, b2, by rw [hreq]⟩
      | TranslatorRecv x =>
        rcases hal with ⟨h0, tReq, hh⟩ | ⟨h0, reply, hh⟩
        · obtain ⟨_, hl⟩ := List.append_inj' hh rfl
          simp at hl
        · obtain ⟨_, hl⟩ := List.append_inj' hh rfl
          simp at hl
      | Send reply err =>
        obtain ⟨h0, r, t, hh, _, _⟩ := hal
        obtain ⟨_, hl⟩ := List.append_inj' hh rfl
        simp at hl

/-- C15, evaluated: the call made for `Bob`, whose locale is empty, after `Ann` was answered. -/
theorem ManyHellos_translation_request_witness :
    (ManyHellos envBonjour
        { inbound := [{ Name := "Ann", Locale := "fr" }, { Name := "Bob", Locale := "" }],
          fin := GoError.EOF }).2 =
        [Event.Recv (Result.ok { Name := "Ann", Locale := "fr" }),
          Event.AllTranslations { Message := "Hello", Locales := ["fr"] } none,
          Event.TranslatorRecv (Result.ok { Translation := "Bonjour" }),
          Event.Send { Message := "Bonjour, Ann!" } none,
          Event.TranslatorRecv (Result.err GoError.EOF)] ++
        Event.Recv (Result.ok { Name := "Bob", Locale := "" }) ::
          [Event.AllTranslations { Message := "Hello", Locales := [""] } none,
            Event.TranslatorRecv (Result.ok { Translation := "Bonjour" }),
            Event.Send { Message := "Bonjour, Bob!" } none,
            Event.TranslatorRecv (Result.err GoError.EOF),
            Event.Recv (Result.err GoError.EOF)] ∧
      ∃ err b2,
        [Event.AllTranslations { Message := "Hello", Locales := [""] } none,
            Event.TranslatorRecv (Result.ok { Translation := "Bonjour" }),
            Event.Send { Message := "Bonjour, Bob!" } none,
            Event.TranslatorRecv (Result.err GoError.EOF),
            Event.Recv (Result.err GoError.EOF)] =
          Event.AllTranslations
            { Message := "Hello", Locales := [({ Name := "Bob", Locale := "" } : HelloRequest).Locale] }
            err :: b2 :=
  ⟨by decide,
    (ManyHellos_translation_request envBonjour
      { inbound := [{ Name := "Ann", Locale := "fr" }, { Name := "Bob", Locale := "" }],
        fin := GoError.EOF }).2
      [Event.Recv (Result.ok { Name := "Ann", Locale := "fr" }),
        Event.AllTranslations { Message := "Hello", Locales := ["fr"] } none,
        Event.TranslatorRecv (Result.ok { Translation := "Bonjour" }),
        Event.Send { Message := "Bonjour, Ann!" } none,
        Event.TranslatorRecv (Result.err GoError.EOF)]
      { Name := "Bob", Locale := "" }
      [Event.AllTranslations { Message := "Hello", Locales := [""] } none,
        Event.TranslatorRecv (Result.ok { Translation := "Bonjour" }),
        Event.Send { Message := "Bonjour, Bob!" } none,
        Event.TranslatorRecv (Result.err GoError.EOF),
        Event.Recv (Result.err GoError.EOF)]
      (by decide)⟩

/-! ## Outcome and output of `ManyHellos` -/

/-- The runs of `ManyHellos` that return `nil`, told by their trace: `n ≥ 1` requests, each
received and answered in full, then the clean end of the inbound stream. -/
theorem ManyHellos_nil_trace (env : Env) (clientStream : ClientStream) :
    (ManyHellos env clientStream).1 = none ↔
      ∃ done : List (HelloRequest × List TranslationReply),
        done ≠ [] ∧ (∀ p ∈ done, p.2 ≠ []) ∧
          clientStream.inbound = done.map Prod.fst ∧ clientStream.fin = GoError.EOF ∧
          (ManyHellos env clientStream).2 =
            segments done ++ [Event.Recv (Result.err GoError.EOF)] := by
  obtain ⟨done, ending, hrun, hne, _, hin⟩ := ManyHellos_shape env clientStream
  constructor
  · intro hnil
    rw [hrun] at hnil
    obtain ⟨hend, hpos⟩ := Ending_result_none done.length ending hnil
    obtain ⟨hfin, hinb⟩ := hin GoError.EOF hend
    refine ⟨done, ?_, hne, hinb, hfin.symm, ?_⟩
    · intro hd
      rw [hd] at hpos
      exact absurd hpos (by simp)
    · rw [hrun, hend]
      rfl
  · rintro ⟨done2, hne2, _, _, _, htrace⟩
    obtain ⟨init, hinit⟩ := Ending_events_last ending
    rw [hrun] at htrace
    simp only at htrace
    rw [hinit, ← List.append_assoc] at htrace
    obtain ⟨hfront, hlast⟩ := List.append_inj' htrace rfl
    have hlast2 : Ending.last ending = Event.Recv (Result.err GoError.EOF) := by
      simpa using hlast
    have hend : ending = Ending.inboundEnd GoError.EOF := by
      cases ending with
      | inboundEnd fin =>
        simp only [Ending.last, Event.Recv.injEq, Result.err.injEq] at hlast2
        rw [hlast2]
      | openFailed inReq e => simp [Ending.last] at hlast2
      | nestedEnd inReq ts fin => simp [Ending.last] at hlast2
      | sendFailed inReq ts t e => simp [Ending.last] at hlast2
    subst hend
    have hinit2 : init = [] := by
      have h1 : [Event.Recv (Result.err GoError.EOF)] =
          init ++ [Event.Recv (Result.err GoError.EOF)] := hinit
      have h2 := congrArg List.length h1
      simp only [List.length_append, List.length_singleton, List.length_nil] at h2
      exact List.length_eq_zero.mp (by omega)
    have hdone : done ≠ [] := by
      intro hd
      rw [hd, hinit2] at hfront
      simp only [segments, List.append_nil] at hfront
      exact segments_ne_nil done2 hne2 hfront.symm
    have hpos : 0 < done.length := List.length_pos.mpr hdone
    rw [hrun]
    simp [Ending.result, hpos]

/-- The inner loop breaks, to go on with the next request, exactly when the nested stream ends
cleanly, an item has been received, and every `Send` succeeds. -/
theorem translatorLoop_brk_iff (env : Env) (inReq : HelloRequest) (fin : GoError)
    (ts : List TranslationReply) :
    ∀ (tCount : Nat) (tr : List Event),
      (translatorLoop env inReq fin ts tCount tr).1 = LoopExit.brk ↔
        fin = GoError.EOF ∧ 0 < tCount + ts.length ∧ SendsSucceed env inReq ts tr := by
  induction ts with
  | nil =>
    intro tCount tr
    rw [translatorLoop_nil]
    by_cases hfin : fin = GoError.EOF
    · by_cases hc : tCount > 0
      · simp [hfin, hc, SendsSucceed]
      · simp [hfin, hc, SendsSucceed]
    · simp [hfin]
  | cons t ts ih =>
    intro tCount tr
    cases hs : env.Send (tr ++ [Event.TranslatorRecv (Result.ok t)])
        { Message := t.Translation ++ ", " ++ inReq.Name ++ "!" } with
    | some e =>
      rw [translatorLoop_cons_some env inReq fin t ts tCount tr e hs]
      simp [SendsSucceed, hs]
    | none =>
      rw [translatorLoop_cons_none env inReq fin t ts tCount tr hs, ih]
      simp only [SendsSucceed, hs, true_and, List.length_cons]
      constructor
      · rintro ⟨h1, _, h3⟩
        exact ⟨h1, by omega, h3⟩
      · rintro ⟨h1, _, h3⟩
        exact ⟨h1, by omega, h3⟩

/-- The outer loop returns `nil` exactly when the inbound stream ends cleanly, a request has been
received, and the surroundings serve the remaining requests well. -/
theorem ManyHellosLoop_nil_iff (env : Env) (fin : GoError) (reqs : List HelloRequest) :
    ∀ (inCount : Nat) (tr : List Event),
      (ManyHellosLoop env fin reqs inCount tr).1 = none ↔
        fin = GoError.EOF ∧ 0 < inCount + reqs.length ∧ WellServed env reqs tr := by
  induction reqs with
  | nil =>
    intro inCount tr
    simp only [ManyHellosLoop]
    by_cases hfin : fin = GoError.EOF
    · by_cases hc : inCount > 0
      · simp [hfin, hc, WellServed]
      · simp [hfin, hc, WellServed]
    · simp [hfin]
  | cons inReq rest ih =>
    intro inCount tr
    rw [ManyHellosLoop_cons]
    cases ho : env.AllTranslations (tr ++ [Event.Recv (Result.ok inReq)])
        { Message := "Hello", Locales := [inReq.Locale] } with
    | err e =>
      simp [WellServed, ho]
    | ok translatorStream =>
      simp only
      have hbrk := translatorLoop_brk_iff env inReq translatorStream.fin translatorStream.items 0
        (tr ++ [Event.Recv (Result.ok inReq)] ++
          [Event.AllTranslations { Message := "Hello", Locales := [inReq.Locale] } none])
      rcases translatorLoop_cases env inReq translatorStream.fin translatorStream.items 0
          (tr ++ [Event.Recv (Result.ok inReq)] ++
            [Event.AllTranslations { Message := "Hello", Locales := [inReq.Locale] } none]) with
        ⟨h1, h2, h3⟩ | ⟨e, _, h2⟩ | ⟨ts1, t, ts2, e, _, h2⟩
      · rw [h3] at hbrk
        obtain ⟨_, _, hsends⟩ := hbrk.mp rfl
        have hitems : translatorStream.items ≠ [] := by
          intro hnil
          rw [hnil] at h2
          simp at h2
        have htrace : tr ++ [Event.Recv (Result.ok inReq)] ++
            [Event.AllTranslations { Message := "Hello", Locales := [inReq.Locale] } none] ++
            answered inReq translatorStream.items ++
            [Event.TranslatorRecv (Result.err GoError.EOF)] =
              tr ++ segment inReq translatorStream.items := by
          simp [segment]
        rw [h3]
        simp only
        rw [ih, htrace]
        constructor
        · rintro ⟨hf, _, hws⟩
          exact ⟨hf, by simp, translatorStream, ho, h1, hitems, hsends, hws⟩
        · rintro ⟨hf, _, stream2, hopen2, _, _, _, hws⟩
          have heq : translatorStream = stream2 := by
            rw [ho] at hopen2
            simpa using hopen2
          subst heq
          exact ⟨hf, by omega, hws⟩
      · rw [h2] at hbrk
        rw [h2]
        constructor
        · intro hnone
          simp at hnone
        · rintro ⟨_, _, stream2, hopen2, hfin2, hitems2, hsends2, _⟩
          have heq : translatorStream = stream2 := by
            rw [ho] at hopen2
            simpa using hopen2
          subst heq
          have hlen := List.length_pos.mpr hitems2
          have := hbrk.mpr ⟨hfin2, by omega, hsends2⟩
          simp at this
      · rw [h2] at hbrk
        rw [h2]
        constructor
        · intro hnone
          simp at hnone
        · rintro ⟨_, _, stream2, hopen2, hfin2, hitems2, hsends2, _⟩
          have heq : translatorStream = stream2 := by
            rw [ho] at hopen2
            simpa using hopen2
          subst heq
          have hlen := List.length_pos.mpr hitems2
          have := hbrk.mpr ⟨hfin2, by omega, hsends2⟩
          simp at this

/-- C17: `ManyHellos` returns `nil` if and only if the inbound stream delivers `n ≥ 1` requests
and then its clean end, and for each of these requests, in turn, the `AllTranslations` call opens
a nested stream, that stream has at least one item and ends cleanly, and every `Send` succeeds
(`WellServed`, a condition on what the surroundings answer).  In every other run it returns a
non-nil error.  The runs that return `nil` are also those whose trace is `n ≥ 1` requests, each
received and answered in full, followed by the clean end of the inbound stream. -/
theorem ManyHellos_nil_iff (env : Env) (clientStream : ClientStream) :
    ((ManyHellos env clientStream).1 = none ↔
        clientStream.inbound ≠ [] ∧ clientStream.fin = GoError.EOF ∧
          WellServed env clientStream.inbound []) ∧
      ((ManyHellos env clientStream).1 ≠ none ↔
        ¬ (clientStream.inbound ≠ [] ∧ clientStream.fin = GoError.EOF ∧
          WellServed env clientStream.inbound [])) ∧
      ((ManyHellos env clientStream).1 = none ↔
        ∃ done : List (HelloRequest × List TranslationReply),
          done ≠ [] ∧ (∀ p ∈ done, p.2 ≠ []) ∧
            clientStream.inbound = done.map Prod.fst ∧ clientStream.fin = GoError.EOF ∧
            (ManyHellos env clientStream).2 =
              segments done ++ [Event.Recv (Result.err GoError.EOF)]) := by
  have hmain : (ManyHellos env clientStream).1 = none ↔
      clientStream.inbound ≠ [] ∧ clientStream.fin = GoError.EOF ∧
        WellServed env clientStream.inbound [] := by
    rw [ManyHellos, ManyHellosLoop_nil_iff]
    constructor
    · rintro ⟨h1, h2, h3⟩
      refine ⟨?_, h1, h3⟩
      intro hnil
      rw [hnil] at h2
      simp at h2
    · rintro ⟨h1, h2, h3⟩
      refine ⟨h2, ?_, h3⟩
      have := List.length_pos.mpr h1
      omega
  exact ⟨hmain, not_congr hmain, ManyHellos_nil_trace env clientStream⟩

/-- C17, evaluated: the surroundings `envBonjour` serve the single request of `Ann` well (one
item, a clean end, a `Send` that succeeds), so `ManyHellos` returns `nil`; the surroundings
`envNothing` give no item, so it returns a non-nil error. -/
theorem ManyHellos_nil_iff_witness :
    (ManyHellos envBonjour
        { inbound := [{ Name := "Ann", Locale := "fr" }], fin := GoError.EOF }).1 = none ∧
      (ManyHellos envNothing
        { inbound := [{ Name := "Ann", Locale := "fr" }], fin := GoError.EOF }).1 ≠ none :=
  ⟨(ManyHellos_nil_iff envBonjour
      { inbound := [{ Name := "Ann", Locale := "fr" }], fin := GoError.EOF }).1.mpr
      ⟨by decide, rfl, by simp [WellServed, SendsSucceed, envBonjour]⟩,
    (ManyHellos_nil_iff envNothing
      { inbound := [{ Name := "Ann", Locale := "fr" }], fin := GoError.EOF }).2.1.mpr
      (by simp [WellServed, SendsSucceed, envNothing])⟩

/-- C19: in every run of `ManyHellos`, whatever its outcome, the replies written are a prefix of
the greetings due for the translation items received, taken in order of receipt (the item `t`
received for the request `r` gives `t + ", " + r.Name + "!"`), and there are at most as many
replies written as items received. -/
theorem ManyHellos_written_is_due (env : Env) (clientStream : ClientStream) :
    written (ManyHellos env clientStream).2 <+: expectedReplies (ManyHellos env clientStream).2 ∧
      (written (ManyHellos env clientStream).2).length ≤
        (received (ManyHellos env clientStream).2).length := by
  obtain ⟨done, ending, hrun, _, _, _⟩ := ManyHellos_shape env clientStream
  obtain ⟨hpre, hlen⟩ := Ending_written ending
  rw [hrun]
  simp only [expectedReplies]
  rw [expectedFrom_segments, written_append, written_segments, received_append,
    received_segments]
  refine ⟨(List.prefix_append_right_inj _).mpr hpre, ?_⟩
  simp only [List.length_append, greetings_length]
  omega

/-! ## Start-up and the starter server -/

/-- C11: in both server programs the port check lets the configured port `p` through (the
program does not take the branch of `log.Fatal("--port must be between 1025 and 65000")`) if and
only if `1025 ≤ p ≤ 65000`, for every integer `p`; otherwise it takes exactly that branch. -/
theorem mainPortCheck_accepts_iff (p : Int) :
    ((∃ port, mainPortCheck p = Startup.listen port) ↔ (1025 ≤ p ∧ p ≤ 65000)) ∧
      ((∃ port, Starter.mainPortCheck p = Startup.listen port) ↔ (1025 ≤ p ∧ p ≤ 65000)) ∧
      (mainPortCheck p = Startup.fatal "--port must be between 1025 and 65000" ↔
        ¬ (1025 ≤ p ∧ p ≤ 65000)) ∧
      (Starter.mainPortCheck p = Startup.fatal "--port must be between 1025 and 65000" ↔
        ¬ (1025 ≤ p ∧ p ≤ 65000)) := by
  by_cases h : p < 1025 ∨ p > 65000
  · have hn : ¬ (1025 ≤ p ∧ p ≤ 65000) := by omega
    simp [mainPortCheck, Starter.mainPortCheck, h, hn]
  · have hy : 1025 ≤ p ∧ p ≤ 65000 := by omega
    simp [mainPortCheck, Starter.mainPortCheck, h, hy]

/-- C12: in the starter server `ManyHellos` returns the error `Streaming call is unimplemented`
whatever the inbound stream and its surroundings are, and makes no call at all: no request is read
and no reply is written. -/
theorem Starter_ManyHellos_unimplemented (env : Env) (clientStream : ClientStream) :
    (Starter.ManyHellos env clientStream).1 =
        some (GoError.errorString "Streaming call is unimplemented") ∧
      (Starter.ManyHellos env clientStream).2 = [] ∧
      written (Starter.ManyHellos env clientStream).2 = [] ∧
      ∀ (env2 : Env) (clientStream2 : ClientStream),
        Starter.ManyHellos env2 clientStream2 = Starter.ManyHellos env clientStream :=
  ⟨rfl, rfl, rfl, fun _ _ => rfl⟩

/-- C16 as stated fails: for the request of `Ann` the starter server answers `Hello Ann`, which
does not contain `Hello, Ann!` and is not the reply of the full server when translation fails. -/
theorem Starter_SayHello_not_fallback :
    (Starter.SayHello { deadline := none } { Name := "Ann", Locale := "" }).1 =
        some { Message := "Hello Ann" } ∧
      ¬ Contains "Hello Ann" ("Hello, " ++ "Ann" ++ "!") ∧
      (Starter.SayHello { deadline := none } { Name := "Ann", Locale := "" }).1 ≠
        (SayHello translateDown 20000 0 { deadline := none } { Name := "Ann", Locale := "" }).1 := by
  decide

/-- C16, amended: in the starter server, for every request `SayHello` returns a nil error and the
reply whose message is exactly `"Hello "` followed by the name: no comma, no exclamation mark and
no translation.  That message never contains `"Hello, "` followed by the name and `"!"`, the
reply of the full server when translation fails. -/
theorem Starter_SayHello_message (ctx : Context) (inReq : HelloRequest) :
    Starter.SayHello ctx inReq = (some { Message := "Hello " ++ inReq.Name }, none) ∧
      ¬ Contains ("Hello " ++ inReq.Name) ("Hello, " ++ inReq.Name ++ "!") := by
  refine ⟨rfl, ?_⟩
  intro h
  have hlen := List.IsInfix.length_le h
  simp only [String.data_append, List.length_append, List.length_cons, List.length_nil] at hlen
  omega

end Greeter
